import Mathlib

/-!
Verification of the MTPE data-warehouse ETL pipeline
(`2_ETL_INTEGRATION/src/extract/extract_cleaned_data.py` and
`2_ETL_INTEGRATION/src/transform/transform_to_constellation.py`).

The python code manipulates pandas DataFrames.  We model a DataFrame as a
list of declared column names together with a list of rows; a row is an
association list from column name to cell value.  Cell values are modelled
by the inductive type `Val`: integers, strings, booleans, calendar
timestamps (a civil date plus a second-of-day, since pandas timestamps
carry a time of day that `dim_tiempo` discards) and the missing value
(pandas `NaN`/`NaT`).  Python floats only appear in the code as the
orphan percentage statistic, which we model exactly as a rational number.

Fallible pandas operations (column selection with a missing label, merge
on a missing key, `astype` on a null, `pd.concat` of an empty list) are
modelled in the `Option` monad: `none` is an exception, which
`transform_all` catches and turns into the `(None, None)` failure result.
-/

namespace MTPE

/-- A civil calendar date (as in python `datetime.date`). -/

structure Date where
  year  : Nat
  month : Nat
  day   : Nat
deriving DecidableEq, Repr

/-- Lexicographic key of a date; chronological order on valid civil dates
is exactly lexicographic order on (year, month, day). -/

def Date.key (d : Date) : Nat ×ₗ (Nat ×ₗ Nat) := toLex (d.year, toLex (d.month, d.day))

instance : LinearOrder Date :=
  LinearOrder.lift' Date.key (by
    intro a b h
    cases a; cases b
    simp only [Date.key] at h
    have h' := congrArg (fun x => ofLex x) h
    simp only [ofLex_toLex] at h'
    obtain ⟨h1, h2⟩ := Prod.mk.injEq .. ▸ h'
    have h2' := congrArg (fun x => ofLex x) h2
    simp only [ofLex_toLex] at h2'
    obtain ⟨h3, h4⟩ := Prod.mk.injEq .. ▸ h2'
    simp_all)

/-- Is `d` a valid civil date (what a pandas timestamp can hold)? -/

def Date.valid (d : Date) : Prop :=
  1 ≤ d.year ∧ 1 ≤ d.month ∧ d.month ≤ 12 ∧ 1 ≤ d.day ∧ d.day ≤ 31

instance (d : Date) : Decidable d.valid := by unfold Date.valid; infer_instance

/-- Days since 1970-01-01 of a civil date (standard days-from-civil
computation; models the calendar arithmetic behind pandas timestamps). -/

def Date.toDays (d : Date) : Int :=
  let y : Int := if d.month ≤ 2 then (d.year : Int) - 1 else (d.year : Int)
  let era : Int := y / 400
  let yoe : Int := y - era * 400
  let mp : Int := ((d.month : Int) + 9) % 12
  let doy : Int := (153 * mp + 2) / 5 + (d.day : Int) - 1
  let doe : Int := yoe * 365 + yoe / 4 - yoe / 100 + doy
  era * 146097 + doe - 719468

/-- Day of week with Monday = 0 .. Sunday = 6 (pandas `dt.dayofweek`).
1970-01-01 was a Thursday, i.e. 3 in this numbering. -/

def Date.dowMon0 (d : Date) : Int := (d.toDays + 3) % 7

/-- pandas `dt.quarter`. -/

def Date.quarter (d : Date) : Int := ((d.month : Int) + 2) / 3

/-- A cell value of a modelled DataFrame. `vdate d s` is a pandas
timestamp: civil date `d` plus `s` seconds within the day.  `vnull` is
`NaN`/`NaT`/`None`. -/

inductive Val where
  | vint  (n : Int)
  | vstr  (s : String)
  | vbool (b : Bool)
  | vdate (d : Date) (sec : Nat)
  | vnull
deriving DecidableEq, Repr

/-- A column label. -/

abbrev Col := String

/-- A row: association list from column label to cell value. -/

abbrev Row := List (Col × Val)

/-- Cell access.  Looking up a label that the row does not carry yields
the missing value, as a pandas cell outside the stored columns is `NaN`. -/

def getCell (r : Row) (c : Col) : Val :=
  match r with
  | [] => .vnull
  | (c', v) :: r' => if c' = c then v else getCell r' c

/-- A modelled DataFrame: declared column labels plus rows. -/

structure DF where
  cols : List Col
  rows : List Row
deriving DecidableEq, Repr

/-- Normalise a row to exactly the given columns (in order), reading each
cell through `getCell`.  All DataFrame operations produce rows normalised
to the frame's declared columns, like real pandas rows. -/

def normRow (cs : List Col) (r : Row) : Row := cs.map (fun c => (c, getCell r c))

/-- String-keyed association map (python dict).  Python dict update
replaces the value in place and appends new keys at the end. -/

abbrev Assoc (α : Type) := List (String × α)

def aget {α : Type} (m : Assoc α) (k : String) : Option α :=
  match m with
  | [] => none
  | (k', v) :: m' => if k' = k then some v else aget m' k

def aset {α : Type} (m : Assoc α) (k : String) (v : α) : Assoc α :=
  match m with
  | [] => [(k, v)]
  | (k', v') :: m' => if k' = k then (k, v) :: m' else (k', v') :: aset m' k v

/-- pandas `df[cs]`: raises `KeyError` when a label is missing. -/

def selectCols (df : DF) (cs : List Col) : Option DF :=
  if ∀ c ∈ cs, c ∈ df.cols then some ⟨cs, df.rows.map (normRow cs)⟩ else none

/-- `df[[c for c in cs if c in df.columns]]`. -/

def selectExisting (df : DF) (cs : List Col) : DF :=
  let cs' := cs.filter (fun c => decide (c ∈ df.cols))
  ⟨cs', df.rows.map (normRow cs')⟩

/-- Keep-first deduplication of a list by a key function, carrying the
set of keys already seen (pandas `drop_duplicates` keep='first'). -/

def dedupKeyAux {α β : Type} [DecidableEq α] (key : β → α) : List β → List α → List β
  | [], _ => []
  | x :: xs, seen =>
      if key x ∈ seen then dedupKeyAux key xs seen
      else x :: dedupKeyAux key xs (key x :: seen)

def dedupKey {α β : Type} [DecidableEq α] (key : β → α) (l : List β) : List β :=
  dedupKeyAux key l []

/-- Keep-first deduplication of a plain list. -/

def dfirst {α : Type} [DecidableEq α] (l : List α) : List α := dedupKey id l

/-- `df.drop_duplicates()` (all columns). -/

def dropDuplicates (df : DF) : DF := ⟨df.cols, dedupKey (normRow df.cols) df.rows⟩

/-- `df.drop_duplicates(subset=cs)`: raises `KeyError` on a missing label. -/

def dropDuplicatesSub (df : DF) (cs : List Col) : Option DF :=
  if ∀ c ∈ cs, c ∈ df.cols then some ⟨df.cols, dedupKey (normRow cs) df.rows⟩ else none

def addSkRows (c : Col) : Nat → List Row → List Row
  | _, [] => []
  | k, r :: rs => ((c, Val.vint (k : Int)) :: r) :: addSkRows c (k + 1) rs

/-- `df.insert(0, c, range(1, len(df)+1))`: dense 1-based surrogate keys. -/

def insertSk (df : DF) (c : Col) : DF := ⟨c :: df.cols, addSkRows c 1 df.rows⟩

def renName (m : List (Col × Col)) (c : Col) : Col :=
  match m with
  | [] => c
  | (a, b) :: m' => if a = c then b else renName m' c

/-- `df.rename(columns=m)`: labels not in the mapping are unchanged. -/

def renameCols (df : DF) (m : List (Col × Col)) : DF :=
  ⟨df.cols.map (renName m), df.rows.map (fun r => r.map (fun p => (renName m p.1, p.2)))⟩

/-- `df.columns = cs`: positional relabelling. -/

def setColumns (df : DF) (cs : List Col) : DF :=
  ⟨cs, df.rows.map (fun r => (cs.zip df.cols).map (fun p => (p.1, getCell r p.2)))⟩

/-- `pd.concat([a, b], ignore_index=True)`: union of columns, rows
appended in order, cells absent from one side becoming `NaN`. -/

def concatDF (a b : DF) : DF :=
  let cs := a.cols ++ b.cols.filter (fun c => decide (c ∉ a.cols))
  ⟨cs, (a.rows ++ b.rows).map (normRow cs)⟩

/-- Column assignment `df[c] = f(row)` (adds the column when absent). -/

def assignCol (df : DF) (c : Col) (f : Row → Val) : DF :=
  ⟨if c ∈ df.cols then df.cols else df.cols ++ [c],
   df.rows.map (fun r => (c, f r) :: r)⟩

def mapColVals (df : DF) (c : Col) (f : Val → Val) : DF :=
  assignCol df c (fun r => f (getCell r c))

/-- `df[c].fillna(v)` assigned back to the column. -/

def fillnaCol (df : DF) (c : Col) (v : Val) : DF :=
  mapColVals df c (fun x => if x = .vnull then v else x)

/-- `df.dropna()`: drop any row holding a null in any declared column. -/

def dropnaAll (df : DF) : DF :=
  ⟨df.cols, df.rows.filter (fun r => decide (∀ c ∈ df.cols, getCell r c ≠ Val.vnull))⟩

/-- `df.dropna(subset=cs)`. -/

def dropnaSub (df : DF) (cs : List Col) : Option DF :=
  if ∀ c ∈ cs, c ∈ df.cols then
    some ⟨df.cols, df.rows.filter (fun r => decide (∀ c ∈ cs, getCell r c ≠ Val.vnull))⟩
  else none

def Val.isInt : Val → Bool
  | vint _ => true
  | _ => false

/-- `df[c].astype('int64')` assigned back: in this model every numeric
cell is already an integer, so the cast leaves rows unchanged and fails
(pandas raises) iff some cell in the column is not an integer. -/

def castIntCol (df : DF) (c : Col) : Option DF :=
  if df.rows.all (fun r => (getCell r c).isInt) then some df else none

/-- `df[c].min()` over an integer column (`NaN` when empty, as pandas). -/

def colMinInt (df : DF) (c : Col) : Val :=
  match df.rows.filterMap (fun r =>
      match getCell r c with
      | .vint n => some n
      | _ => none) with
  | [] => .vnull
  | x :: xs => .vint (xs.foldl min x)

/-- `set(df[c].dropna().unique())`, as a list in first-appearance order
(python set iteration order is unspecified; no claim depends on it). -/

def uniqueNonNull (df : DF) (c : Col) : List Val :=
  dfirst ((df.rows.map (fun r => getCell r c)).filter (fun v => decide (v ≠ Val.vnull)))

inductive How where
  | inner
  | left

/-- Suffixing of overlapping labels in a merge. -/

def sfx (ov : List Col) (s : String) (c : Col) : Col := if c ∈ ov then c ++ s else c

/-- The overlapping labels of a merge. -/

def mergeOv (lcols rcols : List Col) : List Col :=
  rcols.filter (fun c => decide (c ∈ lcols))

/-- The output labels of a merge. -/

def mergeCols (lcols rcols : List Col) : List Col :=
  lcols.map (sfx (mergeOv lcols rcols) "_x") ++ rcols.map (sfx (mergeOv lcols rcols) "_y")

def mergedRow (lcols rcols : List Col) (lr rr : Row) : Row :=
  lcols.map (fun c => (sfx (mergeOv lcols rcols) "_x" c, getCell lr c)) ++
  rcols.map (fun c => (sfx (mergeOv lcols rcols) "_y" c, getCell rr c))

/-- The output rows produced by one left row of a merge. -/

def mergeRowsOf (how : How) (l r : DF) (lk rk : Col) (lr : Row) : List Row :=
  match how, r.rows.filter (fun rr => decide (getCell rr rk = getCell lr lk)) with
  | .left, [] => [mergedRow l.cols r.cols lr []]
  | .inner, [] => []
  | _, ms => ms.map (fun rr => mergedRow l.cols r.cols lr rr)

/-- pandas `l.merge(r, left_on=lk, right_on=rk, how=how)`.  Overlapping
labels get the `_x`/`_y` suffixes; keys match by cell equality (pandas
matches `NaN` merge keys with `NaN`).  Left rows are kept in order, each
producing one output row per matching right row; an inner join drops
unmatched left rows, a left join keeps them with null right cells. -/

def mergeDF (l r : DF) (lk rk : Col) (how : How) : Option DF :=
  if lk ∈ l.cols ∧ rk ∈ r.cols then
    some ⟨mergeCols l.cols r.cols, (l.rows.map (mergeRowsOf how l r lk rk)).flatten⟩
  else none

/-- `df.drop(c, axis=1)`. -/

def dropCol (df : DF) (c : Col) : Option DF :=
  if c ∈ df.cols then
    some ⟨df.cols.erase c, df.rows.map (normRow (df.cols.erase c))⟩
  else none

/-- `pd.to_datetime(x, errors='coerce')` on a cell: timestamps denoting
valid civil dates pass through, everything else coerces to `NaT`
(date-valued source columns carry `vdate` cells in this model). -/

def toDatetime (v : Val) : Option (Date × Nat) :=
  match v with
  | .vdate d s => if d.valid then some (d, s) else none
  | _ => none

def toDatetimeVal (v : Val) : Val :=
  match toDatetime v with
  | some (d, s) => .vdate d s
  | none => .vnull

/-- `pd.to_numeric(x, errors='coerce')`: integers stay, booleans become
0/1, integer-shaped strings parse, everything else coerces to null. -/

def toNumericVal (v : Val) : Val :=
  match v with
  | .vint n => .vint n
  | .vbool b => .vint (if b then 1 else 0)
  | .vstr s =>
      match s.toInt? with
      | some n => .vint n
      | none => .vnull
  | _ => .vnull

/-- The `SINEXPERIENCIA` mapping dict of `_build_dim_vacante` (python
`True`/`False` hash equal to `1`/`0`, so boolean cells hit those keys;
unmapped values become `NaN`). -/

def mapSinExp (v : Val) : Val :=
  match v with
  | .vstr s =>
      if s = "SI" ∨ s = "S" ∨ s = "1" then .vbool true
      else if s = "NO" ∨ s = "N" ∨ s = "0" then .vbool false
      else .vnull
  | .vint n => if n = 1 then .vbool true else if n = 0 then .vbool false else .vnull
  | .vbool b => .vbool b
  | _ => .vnull

/-! ### The extractor (`extract_cleaned_data.py`) -/

/-- `DataExtractor.EXPECTED_FILES` (dict order preserved). -/

def EXPECTED_FILES : List (String × String) :=
  [("postulante", "postulante_clean.csv"),
   ("discapacidad", "discapacidad_clean.csv"),
   ("educacion", "educacion_clean.csv"),
   ("experiencias", "experiencias_clean.csv"),
   ("vacantes", "vacantes_clean.csv"),
   ("competencias", "competencias_clean.csv")]

/-- The input directory: existence flag plus filename-to-dataset map. -/

structure FileSys where
  dirExists : Bool
  files : Assoc DF

/-- `DataExtractor._load_csv`: `FileNotFoundError` when the file is
missing, `ValueError` when the loaded dataset is empty. -/

def load_csv (fs : FileSys) (filename : String) : Option DF :=
  match aget fs.files filename with
  | none => none
  | some df => if df.rows = [] then none else some df

/-- The loading loop of `DataExtractor.extract_all`: datasets accumulate
in `EXPECTED_FILES` order and the first load failure aborts the run. -/

def extract_loop (fs : FileSys) : List (String × String) → Option (Assoc DF)
  | [] => some []
  | (name, filename) :: rest =>
      match load_csv fs filename with
      | none => none
      | some df =>
          match extract_loop fs rest with
          | none => none
          | some m => some ((name, df) :: m)

/-- `DataExtractor._validate_extraction`. -/

def validate_extraction (m : Assoc DF) : Bool :=
  EXPECTED_FILES.all (fun p =>
    match aget m p.1 with
    | some df => !df.rows.isEmpty
    | none => false)

/-- `DataExtractor.extract_all`, together with the constructor's
`_validate_paths` directory check (an uncaught `FileNotFoundError`). -/

def extract_all (fs : FileSys) : Option (Assoc DF) :=
  if fs.dirExists then
    match extract_loop fs EXPECTED_FILES with
    | none => none
    | some m => if validate_extraction m then some m else none
  else none

/-! ### The transformer (`transform_to_constellation.py`)

Each `_build_*` method is modelled by a core function over the dataset
map.  A core returns `none` for an uncaught python exception (which
aborts `transform_all`), and otherwise the built table (or `none` with a
warning when the method skips itself after a guard). -/

/-- `DataTransformer.orphan_stats` after reconciliation. -/

structure OrphanStats where
  huerfanos : Nat
  total : Nat
  pct : ℚ
deriving DecidableEq, Repr

/-- The transformer's mutable state: the dataset map, the built
dimensions and facts, the orphan statistics and the warnings logged. -/

structure TState where
  datasets : Assoc DF
  dims : Assoc DF
  facts : Assoc DF
  orphan_stats : Option OrphanStats
  warnings : List String
deriving DecidableEq, Repr

/-- Parsed dates of the given columns of dataset `name` (column-major,
as the loop of `_build_dim_tiempo` extends the list per column). -/

def dateColsOf (m : Assoc DF) (name : String) (cols : List Col) : List (Date × Nat) :=
  match aget m name with
  | none => []
  | some df =>
      (cols.map (fun c =>
        if c ∈ df.cols then df.rows.filterMap (fun r => toDatetime (getCell r c))
        else [])).flatten

def collectFechas (m : Assoc DF) : List (Date × Nat) :=
  dateColsOf m "vacantes" ["FECHAINICIO", "FECHAFIN", "FECHACREACION"] ++
  dateColsOf m "educacion" ["FECHAINICIO", "FECHAFIN"]

def nombreMes (n : Int) : Val :=
  if n = 1 then .vstr "Enero" else if n = 2 then .vstr "Febrero"
  else if n = 3 then .vstr "Marzo" else if n = 4 then .vstr "Abril"
  else if n = 5 then .vstr "Mayo" else if n = 6 then .vstr "Junio"
  else if n = 7 then .vstr "Julio" else if n = 8 then .vstr "Agosto"
  else if n = 9 then .vstr "Septiembre" else if n = 10 then .vstr "Octubre"
  else if n = 11 then .vstr "Noviembre" else if n = 12 then .vstr "Diciembre"
  else .vnull

def nombreDia (n : Int) : Val :=
  if n = 1 then .vstr "Lunes" else if n = 2 then .vstr "Martes"
  else if n = 3 then .vstr "Miércoles" else if n = 4 then .vstr "Jueves"
  else if n = 5 then .vstr "Viernes" else if n = 6 then .vstr "Sábado"
  else if n = 7 then .vstr "Domingo" else .vnull

def tiempoCols : List Col :=
  ["fecha_sk", "fecha", "anio", "mes", "dia", "trimestre", "semestre",
   "dia_semana", "nombre_mes", "nombre_dia", "es_fin_semana"]

def mkTiempoRow (k : Nat) (d : Date) : Row :=
  [("fecha_sk", .vint (k : Int)),
   ("fecha", .vdate d 0),
   ("anio", .vint (d.year : Int)),
   ("mes", .vint (d.month : Int)),
   ("dia", .vint (d.day : Int)),
   ("trimestre", .vint d.quarter),
   ("semestre", .vint (if d.quarter ≤ 2 then 1 else 2)),
   ("dia_semana", .vint (d.dowMon0 + 1)),
   ("nombre_mes", nombreMes (d.month : Int)),
   ("nombre_dia", nombreDia (d.dowMon0 + 1)),
   ("es_fin_semana", .vbool (decide (d.dowMon0 + 1 = 6 ∨ d.dowMon0 + 1 = 7)))]

def mkTiempoRows : Nat → List Date → List Row
  | _, [] => []
  | k, d :: ds => mkTiempoRow k d :: mkTiempoRows (k + 1) ds

/-- `sorted(set(fechas_normalizadas))` of `_build_dim_tiempo`. -/

def fechasUnicas (m : Assoc DF) : List Date :=
  List.insertionSort (fun a b => a ≤ b) ((collectFechas m).map (fun p => p.1)).dedup

/-- `DataTransformer._build_dim_tiempo`: when no parseable date exists
at all, the `fecha` column of the empty frame is not datetimelike and
the `.dt` accessor raises `AttributeError` (this is the first builder
`transform_all` calls); otherwise the dimension is built. -/
def dimTiempoCore (m : Assoc DF) : Option DF :=
  if fechasUnicas m = [] then none
  else some ⟨tiempoCols, mkTiempoRows 1 (fechasUnicas m)⟩

def ubCols : List Col := ["DEPARTAMENTO", "PROVINCIA", "DISTRITO", "UBIGEO"]

/-- One source block of `_build_dim_ubicacion`: contributes the four
location columns plus the `fuente` tag when all four are present. -/

def ubSource (m : Assoc DF) (name tag : String) : List DF :=
  match aget m name with
  | none => []
  | some df =>
      match selectCols df ubCols with
      | some sel => [assignCol sel "fuente" (fun _ => .vstr tag)]
      | none => []

/-- `DataTransformer._build_dim_ubicacion`: `pd.concat([])` raises when
no source qualifies, aborting the transformation. -/

def dimUbicacionCore (m : Assoc DF) : Option DF :=
  match ubSource m "postulante" "postulante" ++ ubSource m "vacantes" "vacante" with
  | [] => none
  | u0 :: us => do
      let d1 ← dropDuplicatesSub (us.foldl concatDF u0) ["UBIGEO"]
      let d2 := fillnaCol d1 "DISTRITO" (.vstr "SIN_ESPECIFICAR")
      let d3 := fillnaCol d2 "DEPARTAMENTO" (.vstr "SIN_ESPECIFICAR")
      let d4 := fillnaCol d3 "PROVINCIA" (.vstr "SIN_ESPECIFICAR")
      some (setColumns (insertSk d4 "ubicacion_sk")
        ["ubicacion_sk", "departamento", "provincia", "distrito", "ubigeo", "fuente"])

def colsNeededPost : List Col := ["ID_POSTULANTE", "EDAD", "SEXO", "UBIGEO", "ESTADO_CONADIS"]

def postRename : List (Col × Col) :=
  [("ID_POSTULANTE", "id_postulante_original"), ("EDAD", "edad"), ("SEXO", "sexo"),
   ("UBIGEO", "ubigeo"), ("ESTADO_CONADIS", "estado_conadis")]

/-- `DataTransformer._build_dim_postulante`. -/

def dimPostulanteCore (m : Assoc DF) : Option (Option DF × List String) :=
  match aget m "postulante" with
  | none => some (none, ["Dataset postulante no disponible"])
  | some df => do
      let sel ← selectCols df (colsNeededPost.filter (fun c => decide (c ∈ df.cols)))
      let d1 ← dropDuplicatesSub sel ["ID_POSTULANTE"]
      some (some (renameCols (insertSk d1 "postulante_sk") postRename), [])

/-- `DataTransformer._build_dim_empresa`. -/

def dimEmpresaCore (m : Assoc DF) : Option (Option DF × List String) :=
  match aget m "vacantes" with
  | none => some (none, ["Dataset vacantes no disponible"])
  | some df =>
      if "IDEMPRESA" ∈ df.cols then do
        let sel ← selectCols df ["IDEMPRESA"]
        some (some (renameCols (insertSk (dropDuplicates sel) "empresa_sk")
          [("IDEMPRESA", "id_empresa_original")]), [])
      else some (none, ["Columna IDEMPRESA no encontrada"])

def vacOptionalCols : List Col :=
  ["NOMBREAVISO", "VACANTES", "SECTOR", "UBIGEO", "SINEXPERIENCIA", "TIEMPOEXPERIENCIA"]

def vacRename : List (Col × Col) :=
  [("NOMBREAVISO", "nombre_aviso"), ("VACANTES", "num_vacantes"), ("SECTOR", "sector"),
   ("UBIGEO", "ubigeo"), ("SINEXPERIENCIA", "sin_experiencia"),
   ("TIEMPOEXPERIENCIA", "tiempo_experiencia")]

/-- `DataTransformer._build_dim_vacante`. -/

def dimVacanteCore (m : Assoc DF) : Option (Option DF × List String) :=
  match aget m "vacantes" with
  | none => some (none, ["Dataset vacantes no disponible"])
  | some dfv => do
      let sel ← selectCols dfv ["AVISOID"]
      let d1 := setColumns (dropDuplicates sel) ["id_vacante_original"]
      let d2 := insertSk d1 "vacante_sk"
      let merged ← mergeDF d2 dfv "id_vacante_original" "AVISOID" .left
      let d3 ← selectCols merged (["vacante_sk", "id_vacante_original"] ++
        vacOptionalCols.filter (fun c => decide (c ∈ merged.cols)))
      let d4 := if "TIEMPOEXPERIENCIA" ∈ d3.cols then
          fillnaCol (mapColVals d3 "TIEMPOEXPERIENCIA" toNumericVal) "TIEMPOEXPERIENCIA" (.vint 0)
        else d3
      let d5 := if "SINEXPERIENCIA" ∈ d4.cols then
          fillnaCol (mapColVals d4 "SINEXPERIENCIA" mapSinExp) "SINEXPERIENCIA" (.vbool false)
        else d4
      some (some (renameCols d5 vacRename), [])

/-- `DataTransformer._build_dim_competencia`. -/

def dimCompetenciaCore (m : Assoc DF) : Option (Option DF × List String) :=
  match aget m "competencias" with
  | none => some (none, ["Dataset competencias no disponible"])
  | some df =>
      if "NOMBRECOMPETENCIA" ∈ df.cols then do
        let sel ← selectCols df ["NOMBRECOMPETENCIA"]
        some (some (renameCols (insertSk (dropDuplicates sel) "competencia_sk")
          [("NOMBRECOMPETENCIA", "nombre_competencia")]), [])
      else some (none, ["Columna NOMBRECOMPETENCIA no encontrada"])

/-- `df.groupby(kc)[vc].first().reset_index()`: one row per distinct
non-null key carrying the first non-null value of `vc` in its group.
(pandas emits group keys sorted, but the frame is only consumed through a
unique-key left join, so key order is irrelevant; we keep
first-appearance order.) -/

def groupFirst (df : DF) (kc vc : Col) : DF :=
  ⟨[kc, vc],
   (dfirst ((df.rows.map (fun r => getCell r kc)).filter (fun v => decide (v ≠ Val.vnull)))).map
     (fun k =>
       [(kc, k),
        (vc, match (df.rows.filter (fun r => decide (getCell r kc = k))).filterMap
            (fun r => match getCell r vc with | Val.vnull => none | v => some v) with
          | [] => Val.vnull
          | v :: _ => v)])⟩

/-- `DataTransformer._build_dim_carrera`. -/

def dimCarreraCore (m : Assoc DF) : Option (Option DF × List String) :=
  match aget m "educacion" with
  | none => some (none, ["Dataset educacion no disponible"])
  | some df =>
      if "CARRERA" ∈ df.cols then do
        let sel ← selectCols df ["CARRERA"]
        let d1 := renameCols (insertSk (dropnaAll (dropDuplicates sel)) "carrera_sk")
          [("CARRERA", "nombre_carrera")]
        if "GRADO" ∈ df.cols then do
          let merged ← mergeDF d1 (groupFirst df "CARRERA" "GRADO") "nombre_carrera" "CARRERA" .left
          let d2 ← dropCol merged "CARRERA"
          some (some d2, [])
        else some (some d1, [])
      else some (none, ["Columna CARRERA no encontrada"])

/-- `DataTransformer._build_dim_institucion`. -/

def dimInstitucionCore (m : Assoc DF) : Option (Option DF × List String) :=
  match aget m "educacion" with
  | none => some (none, ["Dataset educacion no disponible"])
  | some df =>
      if "INSTITUCION" ∈ df.cols then do
        let sel ← selectCols df ["INSTITUCION"]
        some (some (renameCols (insertSk (dropnaAll (dropDuplicates sel)) "institucion_sk")
          [("INSTITUCION", "nombre_institucion")]), [])
      else some (none, ["Columna INSTITUCION no encontrada"])

/-! ### Orphan reconciliation (`_reconcile_orphans`) -/

def placeholderCols : List Col :=
  ["AVISOID", "NOMBREAVISO", "VACANTES", "SECTOR", "UBIGEO", "SINEXPERIENCIA",
   "TIEMPOEXPERIENCIA", "IDEMPRESA", "DEPARTAMENTO", "PROVINCIA", "DISTRITO",
   "FECHAINICIO", "FECHAFIN", "FECHACREACION", "ACTIVO"]

/-- One synthetic placeholder posting row (`datetime.now().date()` is the
`today` parameter). -/

def placeholderRow (today : Date) (id : Val) : Row :=
  [("AVISOID", id),
   ("NOMBREAVISO", .vstr "REGISTRO_HUERFANO_PRESERVADO"),
   ("VACANTES", .vint 0),
   ("SECTOR", .vstr "SIN_CLASIFICAR"),
   ("UBIGEO", .vstr "000000"),
   ("SINEXPERIENCIA", .vstr "NO"),
   ("TIEMPOEXPERIENCIA", .vint 0),
   ("IDEMPRESA", .vint 0),
   ("DEPARTAMENTO", .vstr "SIN_ESPECIFICAR"),
   ("PROVINCIA", .vstr "SIN_ESPECIFICAR"),
   ("DISTRITO", .vstr "SIN_ESPECIFICAR"),
   ("FECHAINICIO", .vdate today 0),
   ("FECHAFIN", .vdate today 0),
   ("FECHACREACION", .vdate today 0),
   ("ACTIVO", .vbool false)]

def placeholderDF (today : Date) (ids : List Val) : DF :=
  ⟨placeholderCols, ids.map (placeholderRow today)⟩

/-- The orphan posting-ID set: IDs referenced by the competency dataset
minus IDs present in the job-posting dataset, nulls excluded (a list, in
first-appearance order). -/

def orphanIds (dfc dfv : DF) : List Val :=
  (uniqueNonNull dfc "AVISOID").filter (fun v => decide (v ∉ uniqueNonNull dfv "AVISOID"))

/-- `DataTransformer._reconcile_orphans`: returns the updated dataset
map, the statistics record and the warnings logged. -/

def reconcileCore (today : Date) (m : Assoc DF) :
    Option (Assoc DF × Option OrphanStats × List String) :=
  match aget m "competencias", aget m "vacantes" with
  | some dfc, some dfv =>
      if "AVISOID" ∈ dfc.cols ∧ "AVISOID" ∈ dfv.cols then
        let huerfanos := orphanIds dfc dfv
        let total := (uniqueNonNull dfc "AVISOID").length
        let pct : ℚ := if 0 < total then (huerfanos.length * 100 : ℚ) / total else 0
        if 0 < huerfanos.length then
          some (aset m "vacantes" (concatDF dfv (placeholderDF today huerfanos)),
                some ⟨huerfanos.length, total, pct⟩,
                ["Detectados AVISOIDs huerfanos en competencias"])
        else some (m, some ⟨huerfanos.length, total, pct⟩, [])
      else none
  | _, _ => some (m, none, ["Datasets insuficientes para reconciliacion de huerfanos"])

/-! ### Fact builders -/

/-- The recurring optional enrichment step of the fact builders: when the
dimension was built and the natural key is present in the working frame,
left-merge the dimension's selected key pair onto it; otherwise keep the
frame as is. -/

def optDimMerge (dims : Assoc DF) (dn : String) (cs : List Col)
    (lk rk : Col) (h1 : DF) : Option DF :=
  match aget dims dn with
  | some dimD =>
      if lk ∈ h1.cols then do
        let selD ← selectCols dimD cs
        mergeDF h1 selD lk rk .left
      else some h1
  | none => some h1

/-- The competency-join step of `_build_hechos_competencia_requerida`:
inner-merge the whole competency dimension when available. -/

def competenciaMerge (dims : Assoc DF) (h1 : DF) : Option DF :=
  match aget dims "dim_competencia" with
  | some dimC =>
      if "NOMBRECOMPETENCIA" ∈ h1.cols then
        mergeDF h1 dimC "NOMBRECOMPETENCIA" "nombre_competencia" .inner
      else some h1
  | none => some h1

/-- The publication-date step of `_build_hechos_vacante`: normalise
`FECHACREACION`, left-merge the time dimension and fill missing
`fecha_sk` with the earliest one (`fillna(primera).astype` raises on a
value that is still not an integer). -/

def vacTiempoStep (dims : Assoc DF) (h3 : DF) (colsF : List Col) :
    Option (DF × List Col) :=
  match aget dims "dim_tiempo" with
  | some dimT =>
      if "FECHACREACION" ∈ h3.cols then do
        let t1 := mapColVals h3 "FECHACREACION" toDatetimeVal
        let t2 := assignCol t1 "fecha_normalizada" (fun r =>
          match getCell r "FECHACREACION" with
          | .vdate d _ => .vdate d 0
          | _ => .vnull)
        let selT ← selectCols dimT ["fecha_sk", "fecha"]
        let t3 ← mergeDF t2 selT "fecha_normalizada" "fecha" .left
        let primera := colMinInt dimT "fecha_sk"
        let fill := fun r =>
          match getCell r "fecha_sk" with
          | Val.vnull => primera
          | v => v
        if t3.rows.all (fun r => (fill r).isInt) then
          some (assignCol t3 "fecha_publicacion_sk" fill,
                colsF ++ ["fecha_publicacion_sk"])
        else none
      else some (h3, colsF)
  | none => some (h3, colsF)

/-- `DataTransformer._build_hechos_postulante`. -/

def hechosPostulanteCore (ds dims : Assoc DF) : Option (Option DF × List String) :=
  match aget ds "postulante" with
  | none => some (none, ["Dataset postulante no disponible"])
  | some dfp => do
      let dimPost ← aget dims "dim_postulante"
      let sel ← selectCols dimPost ["postulante_sk", "id_postulante_original"]
      let h1 ← mergeDF dfp sel "ID_POSTULANTE" "id_postulante_original" .left
      let h2 ← optDimMerge dims "dim_ubicacion" ["ubicacion_sk", "ubigeo"]
        "UBIGEO" "ubigeo" h1
      let colsF := ["postulante_sk"] ++
        (if "ubicacion_sk" ∈ h2.cols then ["ubicacion_sk"] else [])
      let p :=
        match aget dims "dim_tiempo" with
        | some dimT =>
            (assignCol h2 "fecha_registro_sk" (fun _ => colMinInt dimT "fecha_sk"),
             colsF ++ ["fecha_registro_sk"])
        | none => (h2, colsF)
      some (some (dropDuplicates (selectExisting p.1 p.2)), [])

/-- `DataTransformer._build_hechos_formacion`. -/

def hechosFormacionCore (ds dims : Assoc DF) : Option (Option DF × List String) :=
  match aget ds "educacion" with
  | none => some (none, ["Dataset educacion no disponible"])
  | some dfe => do
      let dimPost ← aget dims "dim_postulante"
      let sel ← selectCols dimPost ["postulante_sk", "id_postulante_original"]
      let h1 ← mergeDF dfe sel "ID_POSTULANTE" "id_postulante_original" .inner
      let h2 ← optDimMerge dims "dim_carrera" ["carrera_sk", "nombre_carrera"]
        "CARRERA" "nombre_carrera" h1
      let h3 ← optDimMerge dims "dim_institucion"
        ["institucion_sk", "nombre_institucion"] "INSTITUCION" "nombre_institucion" h2
      let colsF := ["postulante_sk"] ++
        (if "carrera_sk" ∈ h3.cols then ["carrera_sk"] else []) ++
        (if "institucion_sk" ∈ h3.cols then ["institucion_sk"] else [])
      some (some (dropDuplicates (selectExisting h3 colsF)), [])

/-- `DataTransformer._build_hechos_experiencia`. -/

def hechosExperienciaCore (ds dims : Assoc DF) : Option (Option DF × List String) :=
  match aget ds "experiencias" with
  | none => some (none, ["Dataset experiencias no disponible"])
  | some dfx => do
      let dimPost ← aget dims "dim_postulante"
      let sel ← selectCols dimPost ["postulante_sk", "id_postulante_original"]
      let h1 ← mergeDF dfx sel "ID_POSTULANTE" "id_postulante_original" .inner
      let h2 ← selectCols h1 ["postulante_sk"]
      let h3 ← dropnaSub (dropDuplicates h2) ["postulante_sk"]
      let h4 ← castIntCol h3 "postulante_sk"
      some (some h4, [])

/-- The `activo` step of `_build_hechos_vacante`: rename `ACTIVO` when
present, otherwise assign a constant `True` column (the rename leaves
the selected label `ACTIVO` dangling; `selectExisting` drops it). -/

def activoStep (p : DF × List Col) : DF × List Col :=
  if "ACTIVO" ∈ p.1.cols then (renameCols p.1 [("ACTIVO", "activo")], p.2 ++ ["ACTIVO"])
  else (assignCol p.1 "activo" (fun _ => .vbool true), p.2 ++ ["activo"])

/-- `astype('int64')` applied only when the column exists. -/

def castIfPresent (df : DF) (c : Col) : Option DF :=
  if c ∈ df.cols then castIntCol df c else some df

/-- `DataTransformer._build_hechos_vacante`. -/

def hechosVacanteCore (ds dims : Assoc DF) : Option (Option DF × List String) :=
  match aget ds "vacantes" with
  | none => some (none, ["Dataset vacantes no disponible"])
  | some dfv => do
      let dimVac ← aget dims "dim_vacante"
      let sel ← selectCols dimVac ["vacante_sk", "id_vacante_original"]
      let h1 ← mergeDF dfv sel "AVISOID" "id_vacante_original" .inner
      let h2 ← optDimMerge dims "dim_ubicacion" ["ubicacion_sk", "ubigeo"]
        "UBIGEO" "ubigeo" h1
      let h3 ← optDimMerge dims "dim_empresa" ["empresa_sk", "id_empresa_original"]
        "IDEMPRESA" "id_empresa_original" h2
      let colsF := ["vacante_sk"] ++
        (if "ubicacion_sk" ∈ h3.cols then ["ubicacion_sk"] else []) ++
        (if "empresa_sk" ∈ h3.cols then ["empresa_sk"] else [])
      let p ← vacTiempoStep dims h3 colsF
      let q := activoStep p
      let h6 := dropnaAll (dropDuplicates (selectExisting q.1 q.2))
      let h7 ← castIfPresent h6 "vacante_sk"
      let h8 ← castIfPresent h7 "ubicacion_sk"
      let h9 ← castIfPresent h8 "empresa_sk"
      some (some h9, [])

/-- `DataTransformer._build_hechos_competencia_requerida`. -/

def hechosCompetenciaCore (ds dims : Assoc DF) : Option (Option DF × List String) :=
  match aget ds "competencias" with
  | none => some (none, ["Dataset competencias no disponible"])
  | some dfc => do
      let dimVac ← aget dims "dim_vacante"
      let sel ← selectCols dimVac ["vacante_sk", "id_vacante_original"]
      let h1 ← mergeDF dfc sel "AVISOID" "id_vacante_original" .inner
      let h2 ← competenciaMerge dims h1
      let h3 ← selectCols h2 ["vacante_sk", "competencia_sk"]
      let h4 ← castIntCol (dropnaAll h3) "vacante_sk"
      let h5 ← castIntCol h4 "competencia_sk"
      some (some h5, [])

/-- Store an optional table under its name (a skipped table stores
nothing). -/

def asetOpt (m : Assoc DF) (k : String) (ho : Option DF) : Assoc DF :=
  match ho with
  | some v => aset m k v
  | none => m

/-- The dimension map after phase 1 (`self.dimensions`): built
dimensions are stored under their names in build order, skipped ones are
simply absent. -/

def buildDims (t du : DF) (dp de dv dc dca di : Option DF) : Assoc DF :=
  asetOpt (asetOpt (asetOpt (asetOpt (asetOpt (asetOpt
    (aset (aset ([] : Assoc DF) "dim_tiempo" t) "dim_ubicacion" du)
    "dim_postulante" dp) "dim_empresa" de) "dim_vacante" dv)
    "dim_competencia" dc) "dim_carrera" dca) "dim_institucion" di

/-- The fact map after phase 3 (`self.facts`). -/

def buildFacts (f1 f2 f3 f4 f5 : Option DF) : Assoc DF :=
  asetOpt (asetOpt (asetOpt (asetOpt (asetOpt ([] : Assoc DF)
    "hechos_postulante" f1) "hechos_formacion" f2) "hechos_experiencia" f3)
    "hechos_vacante" f4) "hechos_competencia_requerida" f5

/-- `DataTransformer.transform_all` as a state computation.  Phase 1
builds the dimensions, phase 2 reconciles orphans (note: the code runs
reconciliation AFTER dimension construction), phase 3 builds the facts.
`none` models the caught exception that makes `transform_all` return
`(None, None)`. -/

def transformState (today : Date) (ds0 : Assoc DF) : Option TState := do
  let t ← dimTiempoCore ds0
  let du ← dimUbicacionCore ds0
  let (dp, w3) ← dimPostulanteCore ds0
  let (de, w4) ← dimEmpresaCore ds0
  let (dv, w5) ← dimVacanteCore ds0
  let (dc, w6) ← dimCompetenciaCore ds0
  let (dca, w7) ← dimCarreraCore ds0
  let (di, w8) ← dimInstitucionCore ds0
  let dims := buildDims t du dp de dv dc dca di
  let (ds1, stats, wR) ← reconcileCore today ds0
  let (f1, wf1) ← hechosPostulanteCore ds1 dims
  let (f2, wf2) ← hechosFormacionCore ds1 dims
  let (f3, wf3) ← hechosExperienciaCore ds1 dims
  let (f4, wf4) ← hechosVacanteCore ds1 dims
  let (f5, wf5) ← hechosCompetenciaCore ds1 dims
  some ⟨ds1, dims, buildFacts f1 f2 f3 f4 f5, stats,
        w3 ++ w4 ++ w5 ++ w6 ++ w7 ++ w8 ++ wR ++ wf1 ++ wf2 ++ wf3 ++ wf4 ++ wf5⟩

/-- `DataTransformer.transform_all`: the returned `(dimensions, facts)`
pair, `none` being the `(None, None)` failure result. -/

def transform_all (today : Date) (ds0 : Assoc DF) : Option (Assoc DF × Assoc DF) :=
  (transformState today ds0).map (fun st => (st.dims, st.facts))

/-! ### Concrete inputs used by witnesses and counterexamples -/

def todayRun : Date := ⟨2026, 10, 12⟩

def vacRowO (id : Int) (ub : String) : Row :=
  [("AVISOID", .vint id), ("DEPARTAMENTO", .vstr "LIMA"), ("PROVINCIA", .vstr "LIMA"),
   ("DISTRITO", .vstr "MIRAFLORES"), ("UBIGEO", .vstr ub),
   ("FECHACREACION", .vdate ⟨2024, 1, 15⟩ 0)]

def dfVacO : DF :=
  ⟨["AVISOID", "DEPARTAMENTO", "PROVINCIA", "DISTRITO", "UBIGEO", "FECHACREACION"],
   [vacRowO 1 "150101", vacRowO 2 "150102"]⟩

def compRowO (id : Int) (s : String) : Row :=
  [("AVISOID", .vint id), ("NOMBRECOMPETENCIA", .vstr s)]

def dfCompO : DF :=
  ⟨["AVISOID", "NOMBRECOMPETENCIA"], [compRowO 1 "A", compRowO 2 "B", compRowO 3 "C"]⟩

/-- Posting IDs 1 and 2; competencies reference 1, 2 and the orphan 3. -/

def dsOrphan : Assoc DF := [("vacantes", dfVacO), ("competencias", dfCompO)]

def stOrphan : TState := (transformState todayRun dsOrphan).getD ⟨[], [], [], none, []⟩

/-- The time dimension of that run (the C8 witness table). -/
def dtOrphan : DF := (dimTiempoCore dsOrphan).getD ⟨[], []⟩

/-- A posting dataset with a duplicated AVISOID. -/

def dfVacDup : DF :=
  ⟨["AVISOID", "DEPARTAMENTO", "PROVINCIA", "DISTRITO", "UBIGEO", "FECHACREACION"],
   [vacRowO 1 "150101", vacRowO 1 "150101"]⟩

def dsDup : Assoc DF := [("vacantes", dfVacDup)]

/-! ### Basic lemmas about the table model -/

/-- The values of a column, top to bottom. -/

def colVals (df : DF) (c : Col) : List Val := df.rows.map (fun r => getCell r c)

/-- The dense surrogate-key column `1, 2, ..., n`. -/

def skVals (n : Nat) : List Val := (List.range n).map (fun i => Val.vint ((i + 1 : Nat) : Int))

/-- The surrogate-key invariant: column `c` of `df` is exactly
`1, 2, ..., row count`. -/

def skDense (df : DF) (c : Col) : Prop := colVals df c = skVals df.rows.length

/-! ### Merge lemmas -/

/-! ### Preservation lemmas for the other DataFrame operations -/

/-! ### Surrogate keys of the dimension builders -/

/-- The surrogate-key column name of each dimension table. -/

def skNameOf (n : String) : Col :=
  if n = "dim_tiempo" then "fecha_sk"
  else if n = "dim_ubicacion" then "ubicacion_sk"
  else if n = "dim_postulante" then "postulante_sk"
  else if n = "dim_empresa" then "empresa_sk"
  else if n = "dim_vacante" then "vacante_sk"
  else if n = "dim_competencia" then "competencia_sk"
  else if n = "dim_carrera" then "carrera_sk"
  else if n = "dim_institucion" then "institucion_sk"
  else ""

/-- Is `v` a positive integer at most `n` (and in particular non-null)? -/

def skValOk (n : Nat) (v : Val) : Bool :=
  match v with
  | .vint k => decide (1 ≤ k) && decide (k ≤ (n : Int))
  | _ => false

/-- The claim's surrogate-key invariant: no nulls, no duplicates, every
key a positive integer at most the row count. -/

def skSound (df : DF) (c : Col) : Prop :=
  (colVals df c).Nodup ∧ ∀ v ∈ colVals df c, skValOk df.rows.length v = true

instance (df : DF) (c : Col) : Decidable (skSound df c) := by
  unfold skSound
  infer_instance

instance (df : DF) (c : Col) : Decidable (skDense df c) := by
  unfold skDense
  infer_instance

def allDimsSkSound (dims : Assoc DF) : Bool :=
  dims.all (fun p => decide (skSound p.2 (skNameOf p.1)))

def allDimsSkDense (dims : Assoc DF) : Bool :=
  dims.all (fun p => decide (skDense p.2 (skNameOf p.1)))

/-! ### Orphan reconciliation: placeholder append and frame -/

def eraseKey {α : Type} (m : Assoc α) (k : String) : Assoc α :=
  match m with
  | [] => []
  | (k', v) :: m' => if k' = k then m' else (k', v) :: eraseKey m' k

/-- The claim's description of the placeholder append: existing posting
rows preserved in order cell-for-cell, followed by exactly one
placeholder row per orphan ID carrying the marker name, zero vacancies,
the sentinel strings, zero experience, the `NO` experience flag and the
current date in every date field. -/

def placeholderAppendOk (today : Date) (dfv : DF) (orphans : List Val) (dfv' : DF) : Bool :=
  decide (dfv'.rows.length = dfv.rows.length + orphans.length) &&
  ((dfv'.rows.take dfv.rows.length).zip dfv.rows).all
    (fun p => dfv.cols.all (fun c => decide (getCell p.1 c = getCell p.2 c))) &&
  decide ((dfv'.rows.drop dfv.rows.length).map (fun r => getCell r "AVISOID") = orphans) &&
  (dfv'.rows.drop dfv.rows.length).all (fun r => decide (
      getCell r "NOMBREAVISO" = .vstr "REGISTRO_HUERFANO_PRESERVADO" ∧
      getCell r "VACANTES" = .vint 0 ∧
      getCell r "SECTOR" = .vstr "SIN_CLASIFICAR" ∧
      getCell r "UBIGEO" = .vstr "000000" ∧
      getCell r "SINEXPERIENCIA" = .vstr "NO" ∧
      getCell r "TIEMPOEXPERIENCIA" = .vint 0 ∧
      getCell r "IDEMPRESA" = .vint 0 ∧
      getCell r "DEPARTAMENTO" = .vstr "SIN_ESPECIFICAR" ∧
      getCell r "PROVINCIA" = .vstr "SIN_ESPECIFICAR" ∧
      getCell r "DISTRITO" = .vstr "SIN_ESPECIFICAR" ∧
      getCell r "FECHAINICIO" = .vdate today 0 ∧
      getCell r "FECHAFIN" = .vdate today 0 ∧
      getCell r "FECHACREACION" = .vdate today 0))

def reconOrphan : Assoc DF × Option OrphanStats × List String :=
  (reconcileCore todayRun dsOrphan).getD ([], none, [])

/-! ### Extraction: all-or-nothing -/

/-- Does some expected input file fail to load (missing or empty)? -/

def someInputMissing (fs : FileSys) : Bool :=
  EXPECTED_FILES.any (fun p =>
    match aget fs.files p.2 with
    | none => true
    | some df => df.rows.isEmpty)

/-- A minimal well-formed input directory for the extractor. -/

def dOne : DF := ⟨["A"], [[("A", Val.vint 1)]]⟩

def fsFull : FileSys :=
  ⟨true, [("postulante_clean.csv", dOne), ("discapacidad_clean.csv", dOne),
    ("educacion_clean.csv", dOne), ("experiencias_clean.csv", dOne),
    ("vacantes_clean.csv", dOne), ("competencias_clean.csv", dOne)]⟩

/-- An existing directory missing all expected files. -/

def fsMissing : FileSys := ⟨true, []⟩

/-! ### Referential integrity of the inner-join fact builders -/

/-- The dimension's key column as seen through the dimension map
(empty when the dimension is absent). -/

def dimColOf (dims : Assoc DF) (n : String) (c : Col) : List Val :=
  match aget dims n with
  | some d => colVals d c
  | none => []

/-- The per-cell foreign-key invariant: the cell is null or appears in
the dimension's key column. -/

def fkP (dims : Assoc DF) (dn : String) (c : Col) (v : Val) : Prop :=
  v = Val.vnull ∨ v ∈ dimColOf dims dn c

/-- The inner-join foreign-key pairs of the claim:
(fact table, foreign-key column, dimension table). -/

def fkPairs : List (String × Col × String) :=
  [("hechos_formacion", "postulante_sk", "dim_postulante"),
   ("hechos_experiencia", "postulante_sk", "dim_postulante"),
   ("hechos_vacante", "vacante_sk", "dim_vacante"),
   ("hechos_competencia_requerida", "vacante_sk", "dim_vacante"),
   ("hechos_competencia_requerida", "competencia_sk", "dim_competencia")]

def fkOkB (dims facts : Assoc DF) (p : String × Col × String) : Bool :=
  match aget facts p.1 with
  | none => true
  | some f =>
      f.rows.all (fun r => decide (getCell r p.2.1 = Val.vnull ∨
        getCell r p.2.1 ∈ dimColOf dims p.2.2 p.2.1))

/-- Zero orphan foreign keys across all inner-join fact/dimension pairs. -/

def allFkOk (dims facts : Assoc DF) : Bool := fkPairs.all (fkOkB dims facts)

/-- The surrogate-key labels of the claim's foreign keys: cleaned input
datasets never carry columns with these reserved names. -/

def skFkCols : List Col := ["postulante_sk", "vacante_sk", "competencia_sk"]

def noSkColumns (m : Assoc DF) : Bool :=
  m.all (fun p => p.2.cols.all (fun c => decide (c ∉ skFkCols)))

/-! ### The time dimension -/

/-- The calendar days of the `fecha` column, in row order (a row whose
`fecha` cell is not a pure date contributes nothing). -/

def fechaDates (df : DF) : List Date :=
  df.rows.filterMap (fun r =>
    match getCell r "fecha" with
    | .vdate d 0 => some d
    | _ => none)

/-- Internal consistency of one `dim_tiempo` row: the calendar attributes
are the ones derived from the `fecha` cell, the quarter lies in `1..4`,
the day of week in `1..7` (Monday = 1), the semester is `1` exactly for
quarters `1`-`2`, and the weekend flag holds exactly for days `6`-`7`. -/

def tiempoRowOk (r : Row) : Bool :=
  match getCell r "fecha", getCell r "anio", getCell r "mes", getCell r "dia",
      getCell r "trimestre", getCell r "semestre", getCell r "dia_semana",
      getCell r "es_fin_semana" with
  | .vdate d 0, .vint y, .vint mo, .vint dy, .vint tv, .vint sv, .vint dw, .vbool fw =>
      decide (y = (d.year : Int) ∧ mo = (d.month : Int) ∧ dy = (d.day : Int) ∧
        tv = d.quarter ∧ 1 ≤ tv ∧ tv ≤ 4 ∧
        sv = (if tv ≤ 2 then 1 else 2) ∧
        dw = d.dowMon0 + 1 ∧ 1 ≤ dw ∧ dw ≤ 7 ∧
        fw = decide (dw = 6 ∨ dw = 7))
  | _, _, _, _, _, _, _, _ => false

/-! ### The applicant dimension -/

/-- The applicant natural key of a row. -/

def postKey (r : Row) : Val := getCell r "ID_POSTULANTE"

/-- A job-applicant source row of the witness input. -/

def postRowW (i : Int) (e : Int) : Row :=
  [("ID_POSTULANTE", .vint i), ("EDAD", .vint e), ("SEXO", .vstr "F"),
   ("UBIGEO", .vstr "010101"), ("ESTADO_CONADIS", .vstr "NO")]

/-- 100 unique applicant IDs followed by 5 duplicate-ID rows (the
duplicates carry a different age, so keep-first is observable). -/

def dfPost105 : DF :=
  ⟨["ID_POSTULANTE", "EDAD", "SEXO", "UBIGEO", "ESTADO_CONADIS"],
   (List.range 100).map (fun i => postRowW ((i : Int) + 1) 20) ++
   (List.range 5).map (fun i => postRowW ((i : Int) + 1) 99)⟩

def dsPost100 : Assoc DF := [("postulante", dfPost105)]

/-- The applicant dimension built from the witness input. -/

def dimPost100 : DF :=
  match dimPostulanteCore dsPost100 with
  | some (some d, _) => d
  | _ => ⟨[], []⟩

/-! ### Skip-with-warning policy of the dimension builders -/

def dsCompOnly : Assoc DF := [("competencias", dfCompO)]

/-! ## Theorems -/

theorem aget_aset_same {α : Type} (m : Assoc α) (k : String) (v : α) :
    aget (aset m k v) k = some v := by
  induction m with
  | nil => simp [aget, aset]
  | cons p m ih =>
      obtain ⟨k', v'⟩ := p
      by_cases h : k' = k
      · simp [aset, h, aget]
      · simp [aset, h, aget, ih]

theorem aget_aset_ne {α : Type} (m : Assoc α) {k c : String} (v : α) (h : k ≠ c) :
    aget (aset m k v) c = aget m c := by
  induction m with
  | nil => simp [aget, aset, h]
  | cons p m ih =>
      obtain ⟨k', v'⟩ := p
      by_cases h' : k' = k
      · subst h'
        simp [aset, aget, h]
      · simp only [aset, if_neg h']
        by_cases h'' : k' = c
        · simp [aget, h'']
        · simp [aget, h'', ih]

theorem getCell_cons (c' : Col) (v : Val) (r : Row) (c : Col) :
    getCell ((c', v) :: r) c = if c' = c then v else getCell r c := rfl

theorem getCell_append_of_none {xs ys : Row} {c : Col} (h : ∀ p ∈ xs, p.1 ≠ c) :
    getCell (xs ++ ys) c = getCell ys c := by
  induction xs with
  | nil => rfl
  | cons p xs ih =>
      obtain ⟨a, v⟩ := p
      have ha : a ≠ c := h (a, v) (by simp)
      simp only [List.cons_append, getCell, if_neg ha]
      exact ih (fun q hq => h q (by simp [hq]))

theorem getCell_normRow_mem (cs : List Col) (r : Row) {c : Col} (h : c ∈ cs) :
    getCell (normRow cs r) c = getCell r c := by
  induction cs with
  | nil => cases h
  | cons c0 cs ih =>
      simp only [normRow, List.map_cons, getCell]
      by_cases h0 : c0 = c
      · simp [h0]
      · have : c ∈ cs := by
          rcases List.mem_cons.mp h with h' | h'
          · exact absurd h'.symm h0
          · exact h'
        simpa [h0, normRow] using ih this

theorem getCell_normRow_notMem (cs : List Col) (r : Row) {c : Col} (h : c ∉ cs) :
    getCell (normRow cs r) c = .vnull := by
  induction cs with
  | nil => rfl
  | cons c0 cs ih =>
      have h0 : c0 ≠ c := fun e => h (by simp [e])
      simp only [normRow, List.map_cons, getCell, if_neg h0]
      exact ih (fun hc => h (by simp [hc]))

/-- Keys of a row with nodup labels determine cells. -/
theorem getCell_of_mem_nodup {r : Row} {c : Col} {v : Val}
    (hm : (c, v) ∈ r) (hn : (r.map Prod.fst).Nodup) : getCell r c = v := by
  induction r with
  | nil => cases hm
  | cons p r ih =>
      obtain ⟨a, w⟩ := p
      rw [List.map_cons, List.nodup_cons] at hn
      rcases List.mem_cons.mp hm with h | h
      · rw [Prod.ext_iff] at h
        obtain ⟨h1, h2⟩ := h
        simp only at h1 h2
        subst h1
        subst h2
        simp [getCell]
      · have ha : a ≠ c := by
          intro e
          subst e
          exact hn.1 (List.mem_map.mpr ⟨(a, v), h, rfl⟩)
        simp only [getCell, if_neg ha]
        exact ih h hn.2

theorem dedupKeyAux_sublist {α β : Type} [DecidableEq α] (key : β → α)
    (l : List β) (seen : List α) : List.Sublist (dedupKeyAux key l seen) l := by
  induction l generalizing seen with
  | nil => simp [dedupKeyAux]
  | cons x xs ih =>
      simp only [dedupKeyAux]
      by_cases h : key x ∈ seen
      · simp only [if_pos h]
        exact (ih seen).trans (List.sublist_cons_self x xs)
      · simp only [if_neg h]
        exact (ih (key x :: seen)).cons₂ x

theorem mem_of_mem_dedupKeyAux {α β : Type} [DecidableEq α] {key : β → α}
    {l : List β} {seen : List α} {x : β} (h : x ∈ dedupKeyAux key l seen) : x ∈ l :=
  (dedupKeyAux_sublist key l seen).mem h

theorem map_key_dedupKeyAux {α β : Type} [DecidableEq α] (key : β → α)
    (l : List β) (seen : List α) :
    (dedupKeyAux key l seen).map key = dedupKeyAux id (l.map key) seen := by
  induction l generalizing seen with
  | nil => simp [dedupKeyAux]
  | cons x xs ih =>
      simp only [dedupKeyAux, List.map_cons, id]
      by_cases h : key x ∈ seen
      · simp [h, ih]
      · simp [h, ih]

theorem dedupKeyAux_key_spec {α β : Type} [DecidableEq α] (key : β → α)
    (l : List β) (seen : List α) :
    ((dedupKeyAux key l seen).map key).Nodup ∧
      ∀ a ∈ (dedupKeyAux key l seen).map key, a ∉ seen := by
  induction l generalizing seen with
  | nil => simp [dedupKeyAux]
  | cons x xs ih =>
      simp only [dedupKeyAux]
      by_cases h : key x ∈ seen
      · simpa [h] using ih seen
      · have hx := ih (key x :: seen)
        refine ⟨?_, ?_⟩
        · simp only [if_neg h, List.map_cons, List.nodup_cons]
          exact ⟨fun hm => (hx.2 _ hm) (by simp), hx.1⟩
        · intro a ha
          simp only [if_neg h, List.map_cons, List.mem_cons] at ha
          rcases ha with rfl | ha
          · exact h
          · intro hs
            exact (hx.2 a ha) (by simp [hs])

/-- Every row kept by keep-first dedup is the first row of the input
carrying its key (relative to the keys already seen). -/
theorem dedupKeyAux_first {α β : Type} [DecidableEq α] {key : β → α}
    {l : List β} {seen : List α} {r : β} (h : r ∈ dedupKeyAux key l seen) :
    key r ∉ seen ∧ ∃ l1 l2, l = l1 ++ r :: l2 ∧ ∀ q ∈ l1, key q ≠ key r := by
  induction l generalizing seen with
  | nil => cases h
  | cons x xs ih =>
      simp only [dedupKeyAux] at h
      by_cases hx : key x ∈ seen
      · rw [if_pos hx] at h
        obtain ⟨hs, l1, l2, rfl, hfirst⟩ := ih h
        refine ⟨hs, x :: l1, l2, rfl, ?_⟩
        intro q hq
        rcases List.mem_cons.mp hq with rfl | hq
        · intro e
          exact hs (e ▸ hx)
        · exact hfirst q hq
      · rw [if_neg hx] at h
        rcases List.mem_cons.mp h with rfl | h
        · exact ⟨hx, [], xs, rfl, by simp⟩
        · obtain ⟨hs, l1, l2, rfl, hfirst⟩ := ih h
          have hne : key r ≠ key x := by
            intro e
            exact hs (by simp [e])
          refine ⟨fun hm => hs (by simp [hm]), x :: l1, l2, rfl, ?_⟩
          intro q hq
          rcases List.mem_cons.mp hq with rfl | hq
          · exact fun e => hne e.symm
          · exact hfirst q hq

theorem mem_dedupKeyAux_id {α : Type} [DecidableEq α] (l : List α) (seen : List α)
    (a : α) : a ∈ dedupKeyAux id l seen ↔ a ∈ l ∧ a ∉ seen := by
  induction l generalizing seen with
  | nil => simp [dedupKeyAux]
  | cons x xs ih =>
      simp only [dedupKeyAux, id]
      by_cases h : x ∈ seen
      · rw [if_pos h, ih]
        constructor
        · rintro ⟨hm, hs⟩
          exact ⟨by simp [hm], hs⟩
        · rintro ⟨hm, hs⟩
          rcases List.mem_cons.mp hm with rfl | hm
          · exact absurd h hs
          · exact ⟨hm, hs⟩
      · rw [if_neg h]
        constructor
        · intro hm
          rcases List.mem_cons.mp hm with rfl | hm
          · exact ⟨List.mem_cons_self a xs, h⟩
          · obtain ⟨h1, h2⟩ := (ih _).mp hm
            refine ⟨List.mem_cons_of_mem x h1, ?_⟩
            intro hs
            exact h2 (List.mem_cons_of_mem x hs)
        · rintro ⟨hm, hs⟩
          rcases List.mem_cons.mp hm with rfl | hm
          · exact List.mem_cons_self a _
          · by_cases e : a = x
            · subst e
              exact List.mem_cons_self a _
            · refine List.mem_cons_of_mem x ((ih _).mpr ⟨hm, ?_⟩)
              intro h'
              rcases List.mem_cons.mp h' with h'' | h''
              · exact e h''
              · exact hs h''

theorem dfirst_length_eq_dedup {α : Type} [DecidableEq α] (l : List α) :
    (dfirst l).length = l.dedup.length := by
  have h1 : (dfirst l).Nodup := by
    have := (dedupKeyAux_key_spec (id : α → α) l []).1
    simpa [dfirst, dedupKey] using this
  have h2 : l.dedup.Nodup := l.nodup_dedup
  have hm : ∀ a, a ∈ dfirst l ↔ a ∈ l.dedup := by
    intro a
    rw [List.mem_dedup]
    simpa using mem_dedupKeyAux_id l [] a
  have : (dfirst l).toFinset = l.dedup.toFinset := by
    ext a
    simp [List.mem_toFinset, hm]
  calc (dfirst l).length = (dfirst l).toFinset.card := (List.toFinset_card_of_nodup h1).symm
    _ = l.dedup.toFinset.card := by rw [this]
    _ = l.dedup.length := List.toFinset_card_of_nodup h2

theorem find?_first_occ {α β : Type} [DecidableEq α] (key : β → α) (l1 : List β)
    (r : β) (l2 : List β) (h : ∀ q ∈ l1, key q ≠ key r) :
    (l1 ++ r :: l2).find? (fun q => decide (key q = key r)) = some r := by
  induction l1 with
  | nil => simp [List.find?]
  | cons x xs ih =>
      have hx : key x ≠ key r := h x (by simp)
      rw [List.cons_append, List.find?_cons_of_neg _ (by simpa using hx)]
      exact ih (fun q hq => h q (by simp [hq]))

theorem addSkRows_map_getCell (c : Col) (k : Nat) (rs : List Row) :
    (addSkRows c k rs).map (fun r => getCell r c)
      = (List.range rs.length).map (fun i => Val.vint ((k + i : Nat) : Int)) := by
  induction rs generalizing k with
  | nil => simp [addSkRows]
  | cons r rs ih =>
      simp only [addSkRows, List.map_cons, getCell, if_pos rfl, List.length_cons,
        List.range_succ_eq_map, List.map_map]
      refine congrArg₂ _ (by simp) ?_
      rw [ih (k + 1)]
      apply List.map_congr_left
      intro i _
      simp only [Function.comp]
      congr 1
      omega

theorem addSkRows_length (c : Col) (k : Nat) (rs : List Row) :
    (addSkRows c k rs).length = rs.length := by
  induction rs generalizing k with
  | nil => rfl
  | cons r rs ih => simp [addSkRows, ih]

theorem insertSk_skDense (df : DF) (c : Col) : skDense (insertSk df c) c := by
  unfold skDense colVals insertSk skVals
  simp only [addSkRows_length]
  rw [addSkRows_map_getCell]
  apply List.map_congr_left
  intro i _
  congr 1
  omega

theorem mem_aset {α : Type} {m : Assoc α} {k : String} {v : α} {p : String × α}
    (h : p ∈ aset m k v) : p = (k, v) ∨ p ∈ m := by
  induction m with
  | nil => simpa [aset] using h
  | cons q m ih =>
      obtain ⟨k', v'⟩ := q
      by_cases hk : k' = k
      · rw [aset, if_pos hk] at h
        rcases List.mem_cons.mp h with rfl | h
        · exact Or.inl rfl
        · exact Or.inr (List.mem_cons_of_mem _ h)
      · rw [aset, if_neg hk] at h
        rcases List.mem_cons.mp h with rfl | h
        · exact Or.inr (List.mem_cons_self _ _)
        · rcases ih h with h' | h'
          · exact Or.inl h'
          · exact Or.inr (List.mem_cons_of_mem _ h')

/-- Inversion of a successful `transformState` run into the success of
every stage. -/
theorem transformState_inv {today : Date} {ds0 : Assoc DF} {st : TState}
    (h : transformState today ds0 = some st) :
    ∃ t du dp w3 de w4 dv w5 dc w6 dca w7 di w8 ds1 stats wR f1 wf1 f2 wf2 f3 wf3 f4 wf4 f5 wf5,
      dimTiempoCore ds0 = some t ∧
      dimUbicacionCore ds0 = some du ∧
      dimPostulanteCore ds0 = some (dp, w3) ∧
      dimEmpresaCore ds0 = some (de, w4) ∧
      dimVacanteCore ds0 = some (dv, w5) ∧
      dimCompetenciaCore ds0 = some (dc, w6) ∧
      dimCarreraCore ds0 = some (dca, w7) ∧
      dimInstitucionCore ds0 = some (di, w8) ∧
      reconcileCore today ds0 = some (ds1, stats, wR) ∧
      hechosPostulanteCore ds1 (buildDims t du dp de dv dc dca di)
        = some (f1, wf1) ∧
      hechosFormacionCore ds1 (buildDims t du dp de dv dc dca di)
        = some (f2, wf2) ∧
      hechosExperienciaCore ds1 (buildDims t du dp de dv dc dca di)
        = some (f3, wf3) ∧
      hechosVacanteCore ds1 (buildDims t du dp de dv dc dca di)
        = some (f4, wf4) ∧
      hechosCompetenciaCore ds1 (buildDims t du dp de dv dc dca di)
        = some (f5, wf5) ∧
      st.datasets = ds1 ∧
      st.dims = buildDims t du dp de dv dc dca di ∧
      st.facts = buildFacts f1 f2 f3 f4 f5 ∧
      st.orphan_stats = stats := by
  unfold transformState at h
  rw [Option.bind_eq_bind', Option.bind_eq_some] at h
  obtain ⟨t, h0, h⟩ := h
  rw [Option.bind_eq_bind', Option.bind_eq_some] at h
  obtain ⟨du, h1, h⟩ := h
  rw [Option.bind_eq_bind', Option.bind_eq_some] at h
  obtain ⟨⟨dp, w3⟩, h2, h⟩ := h
  dsimp only at h
  rw [Option.bind_eq_bind', Option.bind_eq_some] at h
  obtain ⟨⟨de, w4⟩, h3, h⟩ := h
  dsimp only at h
  rw [Option.bind_eq_bind', Option.bind_eq_some] at h
  obtain ⟨⟨dv, w5⟩, h4, h⟩ := h
  dsimp only at h
  rw [Option.bind_eq_bind', Option.bind_eq_some] at h
  obtain ⟨⟨dc, w6⟩, h5, h⟩ := h
  dsimp only at h
  rw [Option.bind_eq_bind', Option.bind_eq_some] at h
  obtain ⟨⟨dca, w7⟩, h6, h⟩ := h
  dsimp only at h
  rw [Option.bind_eq_bind', Option.bind_eq_some] at h
  obtain ⟨⟨di, w8⟩, h7, h⟩ := h
  dsimp only at h
  rw [Option.bind_eq_bind', Option.bind_eq_some] at h
  obtain ⟨⟨ds1, stats, wR⟩, h8, h⟩ := h
  dsimp only at h
  rw [Option.bind_eq_bind', Option.bind_eq_some] at h
  obtain ⟨⟨f1, wf1⟩, h9, h⟩ := h
  dsimp only at h
  rw [Option.bind_eq_bind', Option.bind_eq_some] at h
  obtain ⟨⟨f2, wf2⟩, h10, h⟩ := h
  dsimp only at h
  rw [Option.bind_eq_bind', Option.bind_eq_some] at h
  obtain ⟨⟨f3, wf3⟩, h11, h⟩ := h
  dsimp only at h
  rw [Option.bind_eq_bind', Option.bind_eq_some] at h
  obtain ⟨⟨f4, wf4⟩, h12, h⟩ := h
  dsimp only at h
  rw [Option.bind_eq_bind', Option.bind_eq_some] at h
  obtain ⟨⟨f5, wf5⟩, h13, h⟩ := h
  dsimp only at h
  injection h with h
  subst h
  exact ⟨t, du, dp, w3, de, w4, dv, w5, dc, w6, dca, w7, di, w8, ds1, stats, wR,
    f1, wf1, f2, wf2, f3, wf3, f4, wf4, f5, wf5,
    h0, h1, h2, h3, h4, h5, h6, h7, h8, h9, h10, h11, h12, h13, rfl, rfl, rfl, rfl⟩

theorem mem_mergeOv {lcols rcols : List Col} {a : Col} :
    a ∈ mergeOv lcols rcols ↔ a ∈ rcols ∧ a ∈ lcols := by
  simp [mergeOv]

theorem getCell_map_sfx {ov cs : List Col} {f : Col → Val} {c : Col} {s : String}
    (hc : c ∈ cs) (hcov : c ∉ ov)
    (hclash : ∀ a ∈ cs, a ∈ ov → ¬a ++ s = c) :
    getCell (cs.map (fun a => (sfx ov s a, f a))) c = f c := by
  induction cs with
  | nil => cases hc
  | cons a rest ih =>
      rw [List.map_cons, getCell_cons]
      by_cases hao : a ∈ ov
      · have hk : sfx ov s a = a ++ s := by simp [sfx, hao]
        rw [hk, if_neg (hclash a (by simp) hao)]
        have hcr : c ∈ rest := by
          rcases List.mem_cons.mp hc with rfl | h
          · exact absurd hao hcov
          · exact h
        exact ih hcr (fun b hb => hclash b (by simp [hb]))
      · have hk : sfx ov s a = a := by simp [sfx, hao]
        rw [hk]
        by_cases hac : a = c
        · rw [if_pos hac, hac]
        · rw [if_neg hac]
          have hcr : c ∈ rest := by
            rcases List.mem_cons.mp hc with rfl | h
            · exact absurd rfl hac
            · exact h
          exact ih hcr (fun b hb => hclash b (by simp [hb]))

theorem keys_map_sfx_ne {ov cs : List Col} {f : Col → Val} {c : Col} {s : String}
    (hnc : c ∉ cs) (hclash : ∀ a ∈ cs, a ∈ ov → ¬a ++ s = c) :
    ∀ p ∈ cs.map (fun a => (sfx ov s a, f a)), p.1 ≠ c := by
  intro p hp
  obtain ⟨a, ha, rfl⟩ := List.mem_map.mp hp
  by_cases hao : a ∈ ov
  · simpa [sfx, hao] using hclash a ha hao
  · simp only [sfx, if_neg hao]
    intro e
    exact hnc (e ▸ ha)

/-- Reading a right-side column out of a merged row: the cell comes from
the right row, provided the label is no merge overlap and no suffixed
label collides with it. -/
theorem getCell_mergedRow_right {lcols rcols : List Col} (lr rr : Row) {c : Col}
    (hc : c ∈ rcols) (hnl : c ∉ lcols)
    (hx : ∀ a ∈ rcols, ¬a ++ "_x" = c) (hy : ∀ a ∈ rcols, ¬a ++ "_y" = c) :
    getCell (mergedRow lcols rcols lr rr) c = getCell rr c := by
  unfold mergedRow
  rw [getCell_append_of_none, getCell_map_sfx hc]
  · intro ha
    exact hnl (mem_mergeOv.mp ha).2
  · intro a ha hov
    exact hy a ha
  · intro p hp
    obtain ⟨a, ha, rfl⟩ := List.mem_map.mp hp
    by_cases hao : a ∈ mergeOv lcols rcols
    · simpa [sfx, hao] using hx a (mem_mergeOv.mp hao).1
    · simp only [sfx, if_neg hao]
      intro e
      exact hnl (e ▸ ha)

theorem getCell_append_of_mem {xs ys : Row} {c : Col} (h : c ∈ xs.map Prod.fst) :
    getCell (xs ++ ys) c = getCell xs c := by
  induction xs with
  | nil => cases h
  | cons p xs ih =>
      obtain ⟨a, v⟩ := p
      rw [List.cons_append, getCell_cons, getCell_cons]
      by_cases hac : a = c
      · rw [if_pos hac, if_pos hac]
      · rw [if_neg hac, if_neg hac]
        apply ih
        rcases List.mem_map.mp h with ⟨q, hq, hq1⟩
        rcases List.mem_cons.mp hq with rfl | hq
        · exact absurd hq1 hac
        · exact List.mem_map.mpr ⟨q, hq, hq1⟩

/-- Reading a left-side column out of a merged row: the cell comes from
the left row, provided the label is not a right column and no suffixed
label collides with it. -/
theorem getCell_mergedRow_left {lcols rcols : List Col} (lr rr : Row) {c : Col}
    (hc : c ∈ lcols) (hnr : c ∉ rcols)
    (hx : ∀ a ∈ rcols, ¬a ++ "_x" = c) :
    getCell (mergedRow lcols rcols lr rr) c = getCell lr c := by
  have hcov : c ∉ mergeOv lcols rcols := fun h => hnr (mem_mergeOv.mp h).1
  unfold mergedRow
  rw [getCell_append_of_mem, getCell_map_sfx hc hcov]
  · intro a _ hov
    exact hx a (mem_mergeOv.mp hov).1
  · rw [List.map_map]
    exact List.mem_map.mpr ⟨c, hc, by simp [Function.comp, sfx, hcov]⟩

theorem mem_mergeCols_of_right {lcols rcols : List Col} {c : Col}
    (hc : c ∈ rcols)
    (hx : ∀ a ∈ rcols, ¬a ++ "_x" = c) (hy : ∀ a ∈ rcols, ¬a ++ "_y" = c) :
    c ∈ mergeCols lcols rcols ↔ c ∉ lcols := by
  unfold mergeCols
  rw [List.mem_append]
  constructor
  · rintro (h | h) <;> obtain ⟨a, ha, he⟩ := List.mem_map.mp h
    · by_cases hao : a ∈ mergeOv lcols rcols
      · exact absurd (by simpa [sfx, hao] using he) (hx a (mem_mergeOv.mp hao).1)
      · simp only [sfx, if_neg hao] at he
        subst he
        intro hl
        exact hao (mem_mergeOv.mpr ⟨hc, hl⟩)
    · by_cases hao : a ∈ mergeOv lcols rcols
      · exact absurd (by simpa [sfx, hao] using he) (hy a (mem_mergeOv.mp hao).1)
      · simp only [sfx, if_neg hao] at he
        subst he
        intro hl
        exact hao (mem_mergeOv.mpr ⟨hc, hl⟩)
  · intro hnl
    have hcov : c ∉ mergeOv lcols rcols := fun h => hnl (mem_mergeOv.mp h).2
    exact Or.inr (List.mem_map.mpr ⟨c, hc, by simp [sfx, hcov]⟩)

theorem mem_mergeCols_of_notRight {lcols rcols : List Col} {c : Col}
    (hc : c ∉ rcols)
    (hx : ∀ a ∈ rcols, ¬a ++ "_x" = c) (hy : ∀ a ∈ rcols, ¬a ++ "_y" = c) :
    c ∈ mergeCols lcols rcols ↔ c ∈ lcols := by
  have hcov : c ∉ mergeOv lcols rcols := fun h => hc (mem_mergeOv.mp h).1
  unfold mergeCols
  rw [List.mem_append]
  constructor
  · rintro (h | h) <;> obtain ⟨a, ha, he⟩ := List.mem_map.mp h
    · by_cases hao : a ∈ mergeOv lcols rcols
      · exact absurd (by simpa [sfx, hao] using he) (hx a (mem_mergeOv.mp hao).1)
      · simp only [sfx, if_neg hao] at he
        exact he ▸ ha
    · by_cases hao : a ∈ mergeOv lcols rcols
      · exact absurd (by simpa [sfx, hao] using he) (hy a (mem_mergeOv.mp hao).1)
      · simp only [sfx, if_neg hao] at he
        exact absurd (he ▸ ha) hc
  · intro hl
    exact Or.inl (List.mem_map.mpr ⟨c, hl, by simp [sfx, hcov]⟩)

theorem mergeDF_parts {l r : DF} {lk rk : Col} {how : How} {m : DF}
    (h : mergeDF l r lk rk how = some m) :
    m.cols = mergeCols l.cols r.cols ∧
      m.rows = (l.rows.map (mergeRowsOf how l r lk rk)).flatten ∧
      lk ∈ l.cols ∧ rk ∈ r.cols := by
  unfold mergeDF at h
  split at h
  next hcond =>
    cases h
    exact ⟨rfl, rfl, hcond.1, hcond.2⟩
  next => cases h

theorem mem_mergeRowsOf {how : How} {l r : DF} {lk rk : Col} {lr row : Row}
    (h : row ∈ mergeRowsOf how l r lk rk lr) :
    (∃ rr ∈ r.rows, row = mergedRow l.cols r.cols lr rr) ∨
      (how = .left ∧ row = mergedRow l.cols r.cols lr []) := by
  unfold mergeRowsOf at h
  rcases hf : r.rows.filter (fun rr => decide (getCell rr rk = getCell lr lk)) with _ | ⟨rr0, ms⟩
  · rw [hf] at h
    cases how
    · simp at h
    · simp at h
      exact Or.inr ⟨rfl, h⟩
  · rw [hf] at h
    have hsub : ∀ q ∈ rr0 :: ms, q ∈ r.rows := by
      intro q hq
      have : q ∈ r.rows.filter (fun rr => decide (getCell rr rk = getCell lr lk)) := hf ▸ hq
      exact List.mem_of_mem_filter this
    cases how <;> simp only [] at h <;>
      · obtain ⟨rr, hrr, rfl⟩ := List.mem_map.mp h
        exact Or.inl ⟨rr, hsub rr hrr, rfl⟩

theorem mem_mergeDF_rows {l r : DF} {lk rk : Col} {how : How} {m : DF}
    (h : mergeDF l r lk rk how = some m) {row : Row} (hr : row ∈ m.rows) :
    ∃ lr ∈ l.rows,
      (∃ rr ∈ r.rows, row = mergedRow l.cols r.cols lr rr) ∨
        (how = .left ∧ row = mergedRow l.cols r.cols lr []) := by
  obtain ⟨-, hrows, -, -⟩ := mergeDF_parts h
  rw [hrows] at hr
  obtain ⟨sub, hsub, hmem⟩ := List.mem_flatten.mp hr
  obtain ⟨lr, hlr, rfl⟩ := List.mem_map.mp hsub
  exact ⟨lr, hlr, mem_mergeRowsOf hmem⟩

theorem renName_not_source {m : List (Col × Col)} {c : Col}
    (hs : ∀ p ∈ m, p.1 ≠ c) : renName m c = c := by
  induction m with
  | nil => rfl
  | cons p m ih =>
      obtain ⟨a, b⟩ := p
      have : a ≠ c := hs (a, b) (by simp)
      simp only [renName, if_neg this]
      exact ih (fun q hq => hs q (by simp [hq]))

theorem renName_ne_target {m : List (Col × Col)} {k c : Col} (hk : k ≠ c)
    (ht : ∀ p ∈ m, p.2 ≠ c) : renName m k ≠ c := by
  induction m with
  | nil => exact hk
  | cons p m ih =>
      obtain ⟨a, b⟩ := p
      by_cases h : a = k
      · simp only [renName, if_pos h]
        exact ht (a, b) (by simp)
      · simp only [renName, if_neg h]
        exact ih (fun q hq => ht q (by simp [hq]))

theorem getCell_renameRow {m : List (Col × Col)} {r : Row} {c : Col}
    (hs : ∀ p ∈ m, p.1 ≠ c) (ht : ∀ p ∈ m, p.2 ≠ c) :
    getCell (r.map (fun p => (renName m p.1, p.2))) c = getCell r c := by
  induction r with
  | nil => rfl
  | cons p r ih =>
      obtain ⟨k, v⟩ := p
      rw [List.map_cons, getCell_cons, getCell_cons]
      by_cases hk : k = c
      · subst hk
        rw [if_pos (renName_not_source hs), if_pos rfl]
      · rw [if_neg (renName_ne_target hk ht), if_neg hk]
        exact ih

theorem colVals_renameCols {df : DF} {m : List (Col × Col)} {c : Col}
    (hs : ∀ p ∈ m, p.1 ≠ c) (ht : ∀ p ∈ m, p.2 ≠ c) :
    colVals (renameCols df m) c = colVals df c := by
  unfold colVals renameCols
  simp only [List.map_map]
  apply List.map_congr_left
  intro r _
  exact getCell_renameRow hs ht

theorem rows_renameCols_len (df : DF) (m : List (Col × Col)) :
    (renameCols df m).rows.length = df.rows.length := by
  simp [renameCols]

theorem mem_cols_renameCols {df : DF} {m : List (Col × Col)} {c : Col}
    (hs : ∀ p ∈ m, p.1 ≠ c) (ht : ∀ p ∈ m, p.2 ≠ c) :
    c ∈ (renameCols df m).cols ↔ c ∈ df.cols := by
  unfold renameCols
  simp only [List.mem_map]
  constructor
  · rintro ⟨a, ha, he⟩
    by_cases hac : a = c
    · exact hac ▸ ha
    · exact absurd he (renName_ne_target hac ht)
  · intro h
    exact ⟨c, h, renName_not_source hs⟩

theorem colVals_assignCol_ne {df : DF} {c' : Col} {f : Row → Val} {c : Col}
    (h : c' ≠ c) : colVals (assignCol df c' f) c = colVals df c := by
  unfold colVals assignCol
  simp only [List.map_map]
  apply List.map_congr_left
  intro r _
  simp [Function.comp, getCell_cons, h]

theorem colVals_mapColVals_ne {df : DF} {c' : Col} {f : Val → Val} {c : Col}
    (h : c' ≠ c) : colVals (mapColVals df c' f) c = colVals df c :=
  colVals_assignCol_ne h

theorem colVals_fillnaCol_ne {df : DF} {c' : Col} {v : Val} {c : Col}
    (h : c' ≠ c) : colVals (fillnaCol df c' v) c = colVals df c :=
  colVals_assignCol_ne h

theorem mem_cols_assignCol (df : DF) (c' : Col) (f : Row → Val) {c : Col} :
    c ∈ (assignCol df c' f).cols ↔ c ∈ df.cols ∨ c = c' := by
  unfold assignCol
  by_cases h : c' ∈ df.cols
  · rw [if_pos h]
    constructor
    · exact Or.inl
    · rintro (hc | rfl)
      · exact hc
      · exact h
  · rw [if_neg h]
    simp [List.mem_append]

theorem selectCols_parts {df sel : DF} {cs : List Col}
    (h : selectCols df cs = some sel) :
    sel.cols = cs ∧ sel.rows = df.rows.map (normRow cs) ∧ ∀ c ∈ cs, c ∈ df.cols := by
  unfold selectCols at h
  split at h
  next hcond =>
    cases h
    exact ⟨rfl, rfl, hcond⟩
  next => cases h

theorem colVals_selectCols {df sel : DF} {cs : List Col} {c : Col}
    (h : selectCols df cs = some sel) (hc : c ∈ cs) :
    colVals sel c = colVals df c := by
  obtain ⟨-, hrows, -⟩ := selectCols_parts h
  unfold colVals
  rw [hrows, List.map_map]
  apply List.map_congr_left
  intro r _
  exact getCell_normRow_mem cs r hc

theorem selectExisting_parts (df : DF) (cs : List Col) :
    (selectExisting df cs).cols = cs.filter (fun c => decide (c ∈ df.cols)) ∧
      (selectExisting df cs).rows
        = df.rows.map (normRow (cs.filter (fun c => decide (c ∈ df.cols)))) := by
  unfold selectExisting
  exact ⟨rfl, rfl⟩

theorem dropDuplicates_cols (df : DF) : (dropDuplicates df).cols = df.cols := rfl

theorem mem_rows_dropDuplicates {df : DF} {r : Row}
    (h : r ∈ (dropDuplicates df).rows) : r ∈ df.rows :=
  mem_of_mem_dedupKeyAux h

theorem dropnaAll_cols (df : DF) : (dropnaAll df).cols = df.cols := rfl

theorem mem_rows_dropnaAll {df : DF} {r : Row} (h : r ∈ (dropnaAll df).rows) :
    r ∈ df.rows :=
  List.mem_of_mem_filter h

theorem castIntCol_eq {df df' : DF} {c : Col} (h : castIntCol df c = some df') :
    df' = df := by
  unfold castIntCol at h
  split at h
  · cases h
    rfl
  · cases h

theorem dropnaSub_parts {df df' : DF} {cs : List Col} (h : dropnaSub df cs = some df') :
    df'.cols = df.cols ∧ ∀ r ∈ df'.rows, r ∈ df.rows := by
  unfold dropnaSub at h
  split at h
  · cases h
    exact ⟨rfl, fun r hr => List.mem_of_mem_filter hr⟩
  · cases h

theorem dropCol_parts {df df' : DF} {c : Col} (h : dropCol df c = some df') :
    df'.cols = df.cols.erase c ∧ df'.rows = df.rows.map (normRow (df.cols.erase c)) := by
  unfold dropCol at h
  split at h
  · cases h
    exact ⟨rfl, rfl⟩
  · cases h

theorem colVals_dropCol {df df' : DF} {c c' : Col} (h : dropCol df c = some df')
    (hc : c' ∈ df.cols.erase c) : colVals df' c' = colVals df c' := by
  obtain ⟨-, hrows⟩ := dropCol_parts h
  unfold colVals
  rw [hrows, List.map_map]
  apply List.map_congr_left
  intro r _
  exact getCell_normRow_mem _ r hc

/-- `df.columns = c :: tl'` keeps the cells of a leading column that
stays in place. -/
theorem colVals_setColumns_head {df : DF} {c : Col} {tl tl' : List Col}
    (h : df.cols = c :: tl) :
    colVals (setColumns df (c :: tl')) c = colVals df c := by
  unfold colVals setColumns
  simp only [List.map_map]
  apply List.map_congr_left
  intro r _
  rw [h]
  simp [List.zip_cons_cons, getCell_cons]

theorem setColumns_cols (df : DF) (cs : List Col) : (setColumns df cs).cols = cs := rfl

theorem setColumns_rows_len (df : DF) (cs : List Col) :
    (setColumns df cs).rows.length = df.rows.length := by
  simp [setColumns]

/-- A filter by key equality on a list with nodup keys keeps at most one
element. -/
theorem filter_keyEq_len_le_one {β α : Type} [DecidableEq α] {l : List β}
    {key : β → α} (h : (l.map key).Nodup) (v : α) :
    (l.filter (fun x => decide (key x = v))).length ≤ 1 := by
  induction l with
  | nil => simp
  | cons x xs ih =>
      rw [List.map_cons, List.nodup_cons] at h
      by_cases hx : key x = v
      · have : xs.filter (fun y => decide (key y = v)) = [] := by
          apply List.filter_eq_nil_iff.mpr
          intro y hy
          simp only [decide_eq_true_eq]
          intro e
          exact h.1 (List.mem_map.mpr ⟨y, hy, by rw [e, hx]⟩)
        simp [List.filter_cons, hx, this]
      · simp only [List.filter_cons, decide_eq_true_eq, hx, if_false]
        exact ih h.2

/-- A helper to turn a per-left-row singleton output into a map. -/
theorem flatten_map_map_singleton {β γ δ : Type} (f : β → List γ) (g : γ → δ)
    (e : β → δ) (l : List β) (h : ∀ b ∈ l, (f b).map g = [e b]) :
    ((l.map f).flatten).map g = l.map e := by
  induction l with
  | nil => simp
  | cons b l ih =>
      simp only [List.map_cons, List.flatten_cons, List.map_append]
      rw [h b (by simp), ih (fun q hq => h q (by simp [hq]))]
      rfl

/-- A left merge whose right side has at most one match per key keeps the
left rows in order; a left column (no suffix clash) is unchanged. -/
theorem colVals_mergeDF_left_unique {l r : DF} {lk rk c : Col} {m : DF}
    (h : mergeDF l r lk rk .left = some m)
    (huniq : ∀ v, (r.rows.filter (fun rr => decide (getCell rr rk = v))).length ≤ 1)
    (hc : c ∈ l.cols) (hnr : c ∉ r.cols) (hx : ∀ a ∈ r.cols, ¬a ++ "_x" = c) :
    colVals m c = colVals l c := by
  obtain ⟨-, hrows, -, -⟩ := mergeDF_parts h
  unfold colVals
  rw [hrows]
  apply flatten_map_map_singleton
  intro lr _
  unfold mergeRowsOf
  rcases hf : r.rows.filter (fun rr => decide (getCell rr rk = getCell lr lk)) with _ | ⟨rr0, ms⟩
  · simp only [List.map_cons, List.map_nil]
    rw [getCell_mergedRow_left lr [] hc hnr hx]
  · have hlen := huniq (getCell lr lk)
    rw [hf] at hlen
    have hms : ms = [] := by
      cases ms with
      | nil => rfl
      | cons a b => simp at hlen
    subst hms
    simp only [List.map_cons, List.map_nil]
    rw [getCell_mergedRow_left lr rr0 hc hnr hx]

theorem mergeDF_left_rows_len {l r : DF} {lk rk : Col} {m : DF}
    (h : mergeDF l r lk rk .left = some m)
    (huniq : ∀ v, (r.rows.filter (fun rr => decide (getCell rr rk = v))).length ≤ 1) :
    m.rows.length = l.rows.length := by
  obtain ⟨-, hrows, -, -⟩ := mergeDF_parts h
  rw [hrows]
  have : ∀ lr ∈ l.rows, (mergeRowsOf .left l r lk rk lr).length = 1 := by
    intro lr _
    unfold mergeRowsOf
    rcases hf : r.rows.filter (fun rr => decide (getCell rr rk = getCell lr lk)) with _ | ⟨rr0, ms⟩
    · rfl
    · have hlen := huniq (getCell lr lk)
      rw [hf] at hlen
      have hms : ms = [] := by
        cases ms with
        | nil => rfl
        | cons a b => simp at hlen
      subst hms
      rfl
  have haux : ∀ xs : List Row, (∀ q ∈ xs, (mergeRowsOf .left l r lk rk q).length = 1) →
      ((xs.map (mergeRowsOf .left l r lk rk)).flatten).length = xs.length := by
    intro xs hxs
    induction xs with
    | nil => rfl
    | cons x rest ih =>
        simp only [List.map_cons, List.flatten_cons, List.length_append, List.length_cons]
        rw [hxs x (by simp), ih (fun q hq => hxs q (by simp [hq]))]
        omega
  exact haux l.rows this

theorem skDense_transfer {df df' : DF} {c : Col} (h : skDense df c)
    (hv : colVals df' c = colVals df c) (hl : df'.rows.length = df.rows.length) :
    skDense df' c := by
  unfold skDense at h ⊢
  rw [hv, hl, h]

theorem assignCol_rows_len (df : DF) (c : Col) (f : Row → Val) :
    (assignCol df c f).rows.length = df.rows.length := by
  simp [assignCol]

theorem mapColVals_rows_len (df : DF) (c : Col) (f : Val → Val) :
    (mapColVals df c f).rows.length = df.rows.length :=
  assignCol_rows_len df c _

theorem fillnaCol_rows_len (df : DF) (c : Col) (v : Val) :
    (fillnaCol df c v).rows.length = df.rows.length :=
  assignCol_rows_len df c _

theorem selectCols_rows_len {df sel : DF} {cs : List Col}
    (h : selectCols df cs = some sel) : sel.rows.length = df.rows.length := by
  obtain ⟨-, hrows, -⟩ := selectCols_parts h
  simp [hrows]

theorem dropCol_rows_len {df df' : DF} {c : Col} (h : dropCol df c = some df') :
    df'.rows.length = df.rows.length := by
  obtain ⟨-, hrows⟩ := dropCol_parts h
  simp [hrows]

theorem dfirst_nodup {α : Type} [DecidableEq α] (l : List α) : (dfirst l).Nodup := by
  have := (dedupKeyAux_key_spec (id : α → α) l []).1
  simpa [dfirst, dedupKey] using this

/-- If `s` is not a character-suffix of `c`, then no `a ++ s` equals `c`
(screens out suffix collisions with merge-generated labels). -/
theorem ne_append_of_not_suffix {s c : String} (h : ¬s.data <:+ c.data) (a : String) :
    ¬a ++ s = c := by
  intro he
  exact h ⟨a.data, by rw [← String.data_append, he]⟩

theorem mkTiempoRows_length (k : Nat) (ds : List Date) :
    (mkTiempoRows k ds).length = ds.length := by
  induction ds generalizing k with
  | nil => rfl
  | cons d ds ih => simp [mkTiempoRows, ih]

theorem mkTiempoRows_map_sk (k : Nat) (ds : List Date) :
    (mkTiempoRows k ds).map (fun r => getCell r "fecha_sk")
      = (List.range ds.length).map (fun i => Val.vint ((k + i : Nat) : Int)) := by
  induction ds generalizing k with
  | nil => simp [mkTiempoRows]
  | cons d ds ih =>
      simp only [mkTiempoRows, List.map_cons, mkTiempoRow, getCell_cons, if_pos rfl,
        List.length_cons, List.range_succ_eq_map, List.map_map]
      refine congrArg₂ _ (by simp) ?_
      rw [ih (k + 1)]
      apply List.map_congr_left
      intro i _
      simp only [Function.comp]
      congr 1
      omega

theorem dimTiempoCore_skDense {m : Assoc DF} {dt : DF}
    (h : dimTiempoCore m = some dt) : skDense dt "fecha_sk" := by
  unfold dimTiempoCore at h
  split at h
  · cases h
  · injection h with h
    subst h
    unfold skDense colVals skVals
    dsimp only
    simp only [mkTiempoRows_length]
    rw [mkTiempoRows_map_sk]
    apply List.map_congr_left
    intro i _
    congr 1
    omega

theorem dimUbicacionCore_skDense {m : Assoc DF} {du : DF}
    (h : dimUbicacionCore m = some du) : skDense du "ubicacion_sk" := by
  unfold dimUbicacionCore at h
  rcases hsrc : ubSource m "postulante" "postulante" ++ ubSource m "vacantes" "vacante" with
    _ | ⟨u0, us⟩
  · rw [hsrc] at h
    cases h
  · rw [hsrc] at h
    dsimp only at h
    rw [Option.bind_eq_bind', Option.bind_eq_some] at h
    obtain ⟨d1, hd1, h⟩ := h
    injection h with h
    subst h
    apply skDense_transfer (insertSk_skDense _ "ubicacion_sk")
    · exact colVals_setColumns_head rfl
    · exact setColumns_rows_len _ _

theorem dimPostulanteCore_skDense {m : Assoc DF} {dp : DF} {w : List String}
    (h : dimPostulanteCore m = some (some dp, w)) : skDense dp "postulante_sk" := by
  unfold dimPostulanteCore at h
  rcases hg : aget m "postulante" with _ | df
  · rw [hg] at h
    simp at h
  · rw [hg] at h
    dsimp only at h
    rw [Option.bind_eq_bind', Option.bind_eq_some] at h
    obtain ⟨sel, hsel, h⟩ := h
    rw [Option.bind_eq_bind', Option.bind_eq_some] at h
    obtain ⟨d1, hd1, h⟩ := h
    injection h with h
    rw [Prod.mk.injEq] at h
    obtain ⟨h, -⟩ := h
    injection h with h
    subst h
    apply skDense_transfer (insertSk_skDense d1 "postulante_sk")
    · exact colVals_renameCols (by decide) (by decide)
    · exact rows_renameCols_len _ _

theorem dimEmpresaCore_skDense {m : Assoc DF} {d : DF} {w : List String}
    (h : dimEmpresaCore m = some (some d, w)) : skDense d "empresa_sk" := by
  unfold dimEmpresaCore at h
  rcases hg : aget m "vacantes" with _ | df
  · rw [hg] at h
    simp at h
  · rw [hg] at h
    dsimp only at h
    by_cases hc : "IDEMPRESA" ∈ df.cols
    · rw [if_pos hc] at h
      rw [Option.bind_eq_bind', Option.bind_eq_some] at h
      obtain ⟨sel, hsel, h⟩ := h
      injection h with h
      rw [Prod.mk.injEq] at h
      obtain ⟨h, -⟩ := h
      injection h with h
      subst h
      apply skDense_transfer (insertSk_skDense _ "empresa_sk")
      · exact colVals_renameCols (by decide) (by decide)
      · exact rows_renameCols_len _ _
    · rw [if_neg hc] at h
      simp at h

theorem dimCompetenciaCore_skDense {m : Assoc DF} {d : DF} {w : List String}
    (h : dimCompetenciaCore m = some (some d, w)) : skDense d "competencia_sk" := by
  unfold dimCompetenciaCore at h
  rcases hg : aget m "competencias" with _ | df
  · rw [hg] at h
    simp at h
  · rw [hg] at h
    dsimp only at h
    by_cases hc : "NOMBRECOMPETENCIA" ∈ df.cols
    · rw [if_pos hc] at h
      rw [Option.bind_eq_bind', Option.bind_eq_some] at h
      obtain ⟨sel, hsel, h⟩ := h
      injection h with h
      rw [Prod.mk.injEq] at h
      obtain ⟨h, -⟩ := h
      injection h with h
      subst h
      apply skDense_transfer (insertSk_skDense _ "competencia_sk")
      · exact colVals_renameCols (by decide) (by decide)
      · exact rows_renameCols_len _ _
    · rw [if_neg hc] at h
      simp at h

theorem skDense_fillna_mapCol {df : DF} {c c' : Col} {f : Val → Val} {v : Val}
    (hne : c' ≠ c) (h : skDense df c) :
    skDense (fillnaCol (mapColVals df c' f) c' v) c := by
  apply skDense_transfer h
  · rw [colVals_fillnaCol_ne hne, colVals_mapColVals_ne hne]
  · rw [fillnaCol_rows_len, mapColVals_rows_len]

/-- The surrogate keys of `dim_vacante` are dense, provided the posting
dataset's `AVISOID` values are pairwise distinct (the cleaning stage
validates `AVISOID` as a primary key); with duplicated IDs the back-merge
duplicates surrogate keys. -/
theorem dimVacanteCore_skDense {m : Assoc DF} {d : DF} {w : List String}
    (h : dimVacanteCore m = some (some d, w))
    (hnd : ∀ dfv, aget m "vacantes" = some dfv →
      (dfv.rows.map (fun r => getCell r "AVISOID")).Nodup) :
    skDense d "vacante_sk" := by
  unfold dimVacanteCore at h
  rcases hg : aget m "vacantes" with _ | dfv
  · rw [hg] at h
    simp at h
  · rw [hg] at h
    dsimp only at h
    rw [Option.bind_eq_bind', Option.bind_eq_some] at h
    obtain ⟨sel, hsel, h⟩ := h
    rw [Option.bind_eq_bind', Option.bind_eq_some] at h
    obtain ⟨merged, hmerge, h⟩ := h
    rw [Option.bind_eq_bind', Option.bind_eq_some] at h
    obtain ⟨d3, hd3, h⟩ := h
    injection h with h
    rw [Prod.mk.injEq] at h
    obtain ⟨h, -⟩ := h
    injection h with h
    subst h
    obtain ⟨hd3c, hd3r, hd3m⟩ := selectCols_parts hd3
    have hvs_d2 : "vacante_sk" ∈
        (insertSk (setColumns (dropDuplicates sel) ["id_vacante_original"]) "vacante_sk").cols := by
      simp [insertSk]
    have hnr : "vacante_sk" ∉ dfv.cols := by
      intro hin
      have hvm : "vacante_sk" ∈ merged.cols := hd3m _ (by simp)
      obtain ⟨hmc, -, -, -⟩ := mergeDF_parts hmerge
      rw [hmc] at hvm
      have hiff : "vacante_sk" ∈ mergeCols
            (insertSk (setColumns (dropDuplicates sel) ["id_vacante_original"])
              "vacante_sk").cols dfv.cols ↔
          "vacante_sk" ∉ (insertSk (setColumns (dropDuplicates sel)
            ["id_vacante_original"]) "vacante_sk").cols :=
        mem_mergeCols_of_right hin
          (fun a _ => ne_append_of_not_suffix (by decide) a)
          (fun a _ => ne_append_of_not_suffix (by decide) a)
      exact (hiff.mp hvm) hvs_d2
    have huniq : ∀ v,
        (dfv.rows.filter (fun rr => decide (getCell rr "AVISOID" = v))).length ≤ 1 :=
      fun v => filter_keyEq_len_le_one (hnd dfv hg) v
    have hskm : skDense merged "vacante_sk" :=
      skDense_transfer (insertSk_skDense _ "vacante_sk")
        (colVals_mergeDF_left_unique hmerge huniq hvs_d2 hnr
          (fun a _ => ne_append_of_not_suffix (by decide) a))
        (mergeDF_left_rows_len hmerge huniq)
    have hsk3 : skDense d3 "vacante_sk" :=
      skDense_transfer hskm (colVals_selectCols hd3 (by simp)) (selectCols_rows_len hd3)
    have hIf : ∀ (c' : Col) (f : Val → Val) (v : Val) (dfx : DF), c' ≠ "vacante_sk" →
        skDense dfx "vacante_sk" →
        skDense (if c' ∈ dfx.cols then fillnaCol (mapColVals dfx c' f) c' v else dfx)
          "vacante_sk" := by
      intro c' f v dfx hne hx
      split
      · exact skDense_fillna_mapCol hne hx
      · exact hx
    exact skDense_transfer
      (hIf "SINEXPERIENCIA" mapSinExp (.vbool false) _ (by decide)
        (hIf "TIEMPOEXPERIENCIA" toNumericVal (.vint 0) d3 (by decide) hsk3))
      (colVals_renameCols (by decide) (by decide)) (rows_renameCols_len _ _)

theorem groupFirst_cols (df : DF) (kc vc : Col) : (groupFirst df kc vc).cols = [kc, vc] := rfl

theorem groupFirst_keys_nodup (df : DF) (kc vc : Col) :
    ((groupFirst df kc vc).rows.map (fun r => getCell r kc)).Nodup := by
  unfold groupFirst
  simp only [List.map_map]
  have heq : ∀ L : List Val, (L.map (fun k => getCell ((kc, k) :: [(vc,
      match (df.rows.filter (fun r => decide (getCell r kc = k))).filterMap
          (fun r => match getCell r vc with | Val.vnull => none | v => some v) with
        | [] => Val.vnull
        | v :: _ => v)] : Row) kc)) = L := by
    intro L
    have : ∀ k ∈ L, getCell ((kc, k) :: [(vc,
        match (df.rows.filter (fun r => decide (getCell r kc = k))).filterMap
            (fun r => match getCell r vc with | Val.vnull => none | v => some v) with
          | [] => Val.vnull
          | v :: _ => v)] : Row) kc = k := by
      intro k _
      simp [getCell_cons]
    rw [List.map_congr_left this]
    simp
  rw [show ((fun r => getCell r kc) ∘ fun k => ([(kc, k), (vc,
      match (df.rows.filter (fun r => decide (getCell r kc = k))).filterMap
          (fun r => match getCell r vc with | Val.vnull => none | v => some v) with
        | [] => Val.vnull
        | v :: _ => v)] : Row)) = fun k => getCell ((kc, k) :: [(vc,
      match (df.rows.filter (fun r => decide (getCell r kc = k))).filterMap
          (fun r => match getCell r vc with | Val.vnull => none | v => some v) with
        | [] => Val.vnull
        | v :: _ => v)] : Row) kc from rfl]
  rw [heq]
  exact dfirst_nodup _

theorem dimCarreraCore_skDense {m : Assoc DF} {d : DF} {w : List String}
    (h : dimCarreraCore m = some (some d, w)) : skDense d "carrera_sk" := by
  unfold dimCarreraCore at h
  rcases hg : aget m "educacion" with _ | df
  · rw [hg] at h
    simp at h
  · rw [hg] at h
    dsimp only at h
    by_cases hc : "CARRERA" ∈ df.cols
    · rw [if_pos hc] at h
      rw [Option.bind_eq_bind', Option.bind_eq_some] at h
      obtain ⟨sel, hsel, h⟩ := h
      have hsk1 : skDense (renameCols (insertSk (dropnaAll (dropDuplicates sel)) "carrera_sk")
          [("CARRERA", "nombre_carrera")]) "carrera_sk" :=
        skDense_transfer (insertSk_skDense _ _)
          (colVals_renameCols (by decide) (by decide)) (rows_renameCols_len _ _)
      have hcin : "carrera_sk" ∈ (renameCols (insertSk (dropnaAll (dropDuplicates sel))
          "carrera_sk") [("CARRERA", "nombre_carrera")]).cols := by
        rw [mem_cols_renameCols (by decide) (by decide)]
        simp [insertSk]
      by_cases hgr : "GRADO" ∈ df.cols
      · rw [if_pos hgr] at h
        rw [Option.bind_eq_bind', Option.bind_eq_some] at h
        obtain ⟨merged, hmerge, h⟩ := h
        rw [Option.bind_eq_bind', Option.bind_eq_some] at h
        obtain ⟨d2, hdrop, h⟩ := h
        injection h with h
        rw [Prod.mk.injEq] at h
        obtain ⟨h, -⟩ := h
        injection h with h
        subst h
        have huniq : ∀ v, ((groupFirst df "CARRERA" "GRADO").rows.filter
            (fun rr => decide (getCell rr "CARRERA" = v))).length ≤ 1 :=
          fun v => filter_keyEq_len_le_one (groupFirst_keys_nodup df "CARRERA" "GRADO") v
        have hskm : skDense merged "carrera_sk" :=
          skDense_transfer hsk1
            (colVals_mergeDF_left_unique hmerge huniq hcin
              (by rw [groupFirst_cols]; decide)
              (fun a _ => ne_append_of_not_suffix (by decide) a))
            (mergeDF_left_rows_len hmerge huniq)
        have hmem : "carrera_sk" ∈ merged.cols.erase "CARRERA" := by
          obtain ⟨hmc, -, -, -⟩ := mergeDF_parts hmerge
          rw [List.mem_erase_of_ne (by decide), hmc]
          rw [mem_mergeCols_of_notRight (by rw [groupFirst_cols]; decide)
            (fun a _ => ne_append_of_not_suffix (by decide) a)
            (fun a _ => ne_append_of_not_suffix (by decide) a)]
          exact hcin
        exact skDense_transfer hskm (colVals_dropCol hdrop hmem) (dropCol_rows_len hdrop)
      · rw [if_neg hgr] at h
        injection h with h
        rw [Prod.mk.injEq] at h
        obtain ⟨h, -⟩ := h
        injection h with h
        subst h
        exact hsk1
    · rw [if_neg hc] at h
      simp at h

theorem skVals_nodup (n : Nat) : (skVals n).Nodup := by
  unfold skVals
  refine List.Nodup.map ?_ (List.nodup_range n)
  intro a b h
  simpa using h

theorem skSound_of_skDense {df : DF} {c : Col} (h : skDense df c) : skSound df c := by
  unfold skDense at h
  refine ⟨h ▸ skVals_nodup df.rows.length, ?_⟩
  intro v hv
  rw [h] at hv
  unfold skVals at hv
  obtain ⟨i, hi, rfl⟩ := List.mem_map.mp hv
  rw [List.mem_range] at hi
  unfold skValOk
  simp only [Bool.and_eq_true, decide_eq_true_eq]
  omega

theorem aget_asetOpt_ne (m : Assoc DF) (k c : String) (ho : Option DF) (h : k ≠ c) :
    aget (asetOpt m k ho) c = aget m c := by
  cases ho with
  | none => rfl
  | some v => exact aget_aset_ne m v h

theorem aget_asetOpt_same (m : Assoc DF) (k : String) (ho : Option DF)
    (hnone : aget m k = none) :
    aget (asetOpt m k ho) k = ho := by
  cases ho with
  | none => exact hnone
  | some v => exact aget_aset_same m k v

theorem mem_asetOpt {m : Assoc DF} {k : String} {ho : Option DF} {p : String × DF}
    (h : p ∈ asetOpt m k ho) : (∃ d, ho = some d ∧ p = (k, d)) ∨ p ∈ m := by
  cases ho with
  | none => exact Or.inr h
  | some d =>
      rcases mem_aset h with h' | h'
      · exact Or.inl ⟨d, rfl, h'⟩
      · exact Or.inr h'

theorem mem_buildDims {t du : DF} {dp de dv dc dca di : Option DF} {p : String × DF}
    (h : p ∈ buildDims t du dp de dv dc dca di) :
    p = ("dim_tiempo", t) ∨ p = ("dim_ubicacion", du) ∨
    (∃ d, dp = some d ∧ p = ("dim_postulante", d)) ∨
    (∃ d, de = some d ∧ p = ("dim_empresa", d)) ∨
    (∃ d, dv = some d ∧ p = ("dim_vacante", d)) ∨
    (∃ d, dc = some d ∧ p = ("dim_competencia", d)) ∨
    (∃ d, dca = some d ∧ p = ("dim_carrera", d)) ∨
    (∃ d, di = some d ∧ p = ("dim_institucion", d)) := by
  unfold buildDims at h
  rcases mem_asetOpt h with h' | h
  · exact Or.inr (Or.inr (Or.inr (Or.inr (Or.inr (Or.inr (Or.inr h'))))))
  rcases mem_asetOpt h with h' | h
  · exact Or.inr (Or.inr (Or.inr (Or.inr (Or.inr (Or.inr (Or.inl h'))))))
  rcases mem_asetOpt h with h' | h
  · exact Or.inr (Or.inr (Or.inr (Or.inr (Or.inr (Or.inl h')))))
  rcases mem_asetOpt h with h' | h
  · exact Or.inr (Or.inr (Or.inr (Or.inr (Or.inl h'))))
  rcases mem_asetOpt h with h' | h
  · exact Or.inr (Or.inr (Or.inr (Or.inl h')))
  rcases mem_asetOpt h with h' | h
  · exact Or.inr (Or.inr (Or.inl h'))
  rcases mem_aset h with h' | h
  · exact Or.inr (Or.inl h')
  rcases mem_aset h with h' | h
  · exact Or.inl h'
  cases h

theorem dimInstitucionCore_skDense {m : Assoc DF} {d : DF} {w : List String}
    (h : dimInstitucionCore m = some (some d, w)) : skDense d "institucion_sk" := by
  unfold dimInstitucionCore at h
  rcases hg : aget m "educacion" with _ | df
  · rw [hg] at h
    simp at h
  · rw [hg] at h
    dsimp only at h
    by_cases hc : "INSTITUCION" ∈ df.cols
    · rw [if_pos hc] at h
      rw [Option.bind_eq_bind', Option.bind_eq_some] at h
      obtain ⟨sel, hsel, h⟩ := h
      injection h with h
      rw [Prod.mk.injEq] at h
      obtain ⟨h, -⟩ := h
      injection h with h
      subst h
      apply skDense_transfer (insertSk_skDense _ "institucion_sk")
      · exact colVals_renameCols (by decide) (by decide)
      · exact rows_renameCols_len _ _
    · rw [if_neg hc] at h
      simp at h

theorem concatDF_cols (a b : DF) :
    (concatDF a b).cols = a.cols ++ b.cols.filter (fun c => decide (c ∉ a.cols)) := rfl

theorem mem_concatDF_cols_right {a b : DF} {c : Col} (h : c ∈ b.cols) :
    c ∈ (concatDF a b).cols := by
  rw [concatDF_cols, List.mem_append]
  by_cases ha : c ∈ a.cols
  · exact Or.inl ha
  · exact Or.inr (List.mem_filter.mpr ⟨h, by simpa using ha⟩)

theorem mem_concatDF_cols_left {a b : DF} {c : Col} (h : c ∈ a.cols) :
    c ∈ (concatDF a b).cols := by
  rw [concatDF_cols, List.mem_append]
  exact Or.inl h

theorem zip_map_self_all {α β : Type} {A : List α} {f : α → β} {p : β × α → Bool}
    (h : ∀ a ∈ A, p (f a, a) = true) : ((A.map f).zip A).all p = true := by
  induction A with
  | nil => rfl
  | cons a A ih =>
      rw [List.map_cons, List.zip_cons_cons, List.all_cons, h a (by simp),
        ih (fun q hq => h q (by simp [hq]))]
      rfl

theorem eraseKey_aset {α : Type} (m : Assoc α) (k : String) (v : α) :
    eraseKey (aset m k v) k = eraseKey m k := by
  induction m with
  | nil => simp [aset, eraseKey]
  | cons p m ih =>
      obtain ⟨k', v'⟩ := p
      by_cases h : k' = k
      · simp [aset, eraseKey, h]
      · simp [aset, eraseKey, h, ih]

theorem zip_self_all {α : Type} {A : List α} {p : α × α → Bool}
    (h : ∀ a ∈ A, p (a, a) = true) : (A.zip A).all p = true := by
  induction A with
  | nil => rfl
  | cons a A ih =>
      rw [List.zip_cons_cons, List.all_cons, h a (by simp),
        ih (fun q hq => h q (by simp [hq]))]
      rfl

theorem placeholderAppendOk_self (today : Date) (dfv : DF) :
    placeholderAppendOk today dfv [] dfv = true := by
  unfold placeholderAppendOk
  simp only [List.length_nil, Nat.add_zero, decide_True, List.take_length,
    List.drop_length, List.map_nil, List.all_nil, Bool.and_true, Bool.true_and,
    decide_eq_true_eq]
  apply zip_self_all
  intro a _
  rw [List.all_eq_true]
  intro c _
  simp

theorem placeholderAppendOk_concat (today : Date) (dfv : DF) (ids : List Val)
    (hiv : "AVISOID" ∈ dfv.cols) :
    placeholderAppendOk today dfv ids (concatDF dfv (placeholderDF today ids)) = true := by
  have hrows : (concatDF dfv (placeholderDF today ids)).rows
      = dfv.rows.map (normRow (concatDF dfv (placeholderDF today ids)).cols)
        ++ (ids.map (placeholderRow today)).map
            (normRow (concatDF dfv (placeholderDF today ids)).cols) := by
    simp [concatDF, placeholderDF, List.map_append]
  have hlen1 : (dfv.rows.map (normRow (concatDF dfv (placeholderDF today ids)).cols)).length
      = dfv.rows.length := by simp
  have hmemA : "AVISOID" ∈ (concatDF dfv (placeholderDF today ids)).cols :=
    mem_concatDF_cols_left hiv
  have hmemPh : ∀ c ∈ placeholderCols, c ∈ (concatDF dfv (placeholderDF today ids)).cols :=
    fun c hc => (mem_concatDF_cols_right hc :
      c ∈ (concatDF dfv (placeholderDF today ids)).cols)
  unfold placeholderAppendOk
  rw [hrows, List.take_left' hlen1, List.drop_left' hlen1]
  simp only [Bool.and_eq_true, decide_eq_true_eq]
  refine ⟨⟨⟨by simp, ?_⟩, ?_⟩, ?_⟩
  · apply zip_map_self_all
    intro a _
    rw [List.all_eq_true]
    intro c hc
    rw [decide_eq_true_eq]
    exact getCell_normRow_mem _ a (mem_concatDF_cols_left hc)
  · rw [List.map_map, List.map_map]
    have : ∀ id ∈ ids,
        (((fun r => getCell r "AVISOID") ∘ normRow (concatDF dfv (placeholderDF today ids)).cols)
          ∘ placeholderRow today) id = id := by
      intro id _
      simp only [Function.comp]
      rw [getCell_normRow_mem _ _ hmemA]
      rfl
    rw [List.map_congr_left this]
    simp
  · rw [List.all_eq_true]
    intro r hr
    rw [List.mem_map] at hr
    obtain ⟨q, hq, rfl⟩ := hr
    rw [List.mem_map] at hq
    obtain ⟨id, hid, rfl⟩ := hq
    rw [decide_eq_true_eq]
    refine ⟨?_, ?_, ?_, ?_, ?_, ?_, ?_, ?_, ?_, ?_, ?_, ?_, ?_⟩ <;>
      · rw [getCell_normRow_mem _ _ (hmemPh _ (by decide))]
        rfl

/-- C5: when both datasets and their `AVISOID` columns are present, the
reconciler appends exactly one placeholder posting row per orphan ID —
order-preserving, with the marker name, zero vacancies, the sentinel
strings, zero experience requirement, the `NO` experience flag and the
current date in every date field — and records the orphan count, the
count of competency-referenced postings, and the percentage orphaned (0
when no postings are referenced). -/
theorem c5_reconcile_placeholders (today : Date) (m : Assoc DF) (dfc dfv : DF)
    (hc : aget m "competencias" = some dfc) (hv : aget m "vacantes" = some dfv)
    (hic : "AVISOID" ∈ dfc.cols) (hiv : "AVISOID" ∈ dfv.cols) :
    match reconcileCore today m with
    | some (m', some stats, _) =>
        (match aget m' "vacantes" with
         | some dfv' => placeholderAppendOk today dfv (orphanIds dfc dfv) dfv' = true
         | none => False) ∧
        stats.huerfanos = (orphanIds dfc dfv).length ∧
        stats.total = (uniqueNonNull dfc "AVISOID").length ∧
        (stats.total = 0 → stats.pct = 0) ∧
        (stats.total : ℚ) * stats.pct = (stats.huerfanos : ℚ) * 100
    | _ => False := by
  have horph_le : (orphanIds dfc dfv).length ≤ (uniqueNonNull dfc "AVISOID").length :=
    List.length_filter_le _ _
  unfold reconcileCore
  rw [hc, hv]
  dsimp only
  rw [if_pos ⟨hic, hiv⟩]
  by_cases h0 : 0 < (orphanIds dfc dfv).length
  · rw [if_pos h0]
    dsimp only
    refine ⟨?_, rfl, rfl, ?_, ?_⟩
    · rw [aget_aset_same]
      exact placeholderAppendOk_concat today dfv (orphanIds dfc dfv) hiv
    · intro hz
      rw [if_neg (by omega)]
    · by_cases ht : 0 < (uniqueNonNull dfc "AVISOID").length
      · rw [if_pos ht, mul_comm, div_mul_cancel₀ _
          (show ((uniqueNonNull dfc "AVISOID").length : ℚ) ≠ 0 from
            Nat.cast_ne_zero.mpr (by omega))]
      · rw [if_neg ht]
        have : (orphanIds dfc dfv).length = 0 := by omega
        simp [this]
  · rw [if_neg h0]
    dsimp only
    have hz : orphanIds dfc dfv = [] := by
      cases he : orphanIds dfc dfv with
      | nil => rfl
      | cons a b => rw [he] at h0; simp at h0
    refine ⟨?_, rfl, rfl, ?_, ?_⟩
    · rw [hv, hz]
      exact placeholderAppendOk_self today dfv
    · intro ht
      rw [if_neg (by omega)]
    · rw [hz]
      by_cases ht : 0 < (uniqueNonNull dfc "AVISOID").length
      · rw [if_pos ht]
        simp
      · rw [if_neg ht]
        simp

theorem c5_reconcile_placeholders_witness :
    match reconcileCore todayRun dsOrphan with
    | some (m', some stats, _) =>
        (match aget m' "vacantes" with
         | some dfv' =>
             placeholderAppendOk todayRun dfVacO (orphanIds dfCompO dfVacO) dfv' = true
         | none => False) ∧
        stats.huerfanos = (orphanIds dfCompO dfVacO).length ∧
        stats.total = (uniqueNonNull dfCompO "AVISOID").length ∧
        (stats.total = 0 → stats.pct = 0) ∧
        (stats.total : ℚ) * stats.pct = (stats.huerfanos : ℚ) * 100
    | _ => False :=
  c5_reconcile_placeholders todayRun dsOrphan dfCompO dfVacO rfl rfl (by decide) (by decide)

/-- C10: the reconciler's only dataset-map effect is on the `vacantes`
entry — all other entries are untouched — and when the orphan set is
empty the `vacantes` dataset itself is unchanged and no warning is
logged (only the statistics record is written). -/
theorem c10_reconcile_frame (today : Date) (m m' : Assoc DF) (stats : Option OrphanStats)
    (ws : List String) (h : reconcileCore today m = some (m', stats, ws)) :
    eraseKey m' "vacantes" = eraseKey m "vacantes" ∧
    (match aget m "competencias", aget m "vacantes" with
     | some dfc, some dfv => orphanIds dfc dfv = [] → m' = m ∧ ws = []
     | _, _ => m' = m) := by
  unfold reconcileCore at h
  rcases hgc : aget m "competencias" with _ | dfc <;> rw [hgc] at h
  · dsimp only at h
    injection h with h
    rw [Prod.mk.injEq] at h
    obtain ⟨rfl, -⟩ := h
    refine ⟨rfl, ?_⟩
    cases aget m "vacantes" <;> exact rfl
  · rcases hgv : aget m "vacantes" with _ | dfv <;> rw [hgv] at h
    · dsimp only at h
      injection h with h
      rw [Prod.mk.injEq] at h
      obtain ⟨rfl, -⟩ := h
      exact ⟨rfl, rfl⟩
    · dsimp only at h
      split at h
      · by_cases h0 : 0 < (orphanIds dfc dfv).length
        · rw [if_pos h0] at h
          injection h with h
          rw [Prod.mk.injEq] at h
          obtain ⟨rfl, h⟩ := h
          rw [Prod.mk.injEq] at h
          obtain ⟨-, rfl⟩ := h
          refine ⟨eraseKey_aset m "vacantes" _, ?_⟩
          intro hz
          rw [hz] at h0
          simp at h0
        · rw [if_neg h0] at h
          injection h with h
          rw [Prod.mk.injEq] at h
          obtain ⟨rfl, h⟩ := h
          rw [Prod.mk.injEq] at h
          obtain ⟨-, rfl⟩ := h
          refine ⟨rfl, ?_⟩
          intro hz
          exact ⟨rfl, rfl⟩
      · cases h

theorem c10_reconcile_frame_witness :
    eraseKey reconOrphan.1 "vacantes" = eraseKey dsOrphan "vacantes" ∧
    (match aget dsOrphan "competencias", aget dsOrphan "vacantes" with
     | some dfc, some dfv =>
         orphanIds dfc dfv = [] → reconOrphan.1 = dsOrphan ∧ reconOrphan.2.2 = []
     | _, _ => reconOrphan.1 = dsOrphan) :=
  c10_reconcile_frame todayRun dsOrphan reconOrphan.1 reconOrphan.2.1 reconOrphan.2.2 rfl

theorem extract_loop_none {fs : FileSys} {L : List (String × String)}
    (h : L.any (fun p =>
      match aget fs.files p.2 with
      | none => true
      | some df => df.rows.isEmpty) = true) :
    extract_loop fs L = none := by
  induction L with
  | nil => simp at h
  | cons p L ih =>
      obtain ⟨name, filename⟩ := p
      rw [List.any_cons, Bool.or_eq_true] at h
      unfold extract_loop load_csv
      rcases hg : aget fs.files filename with _ | df
      · rfl
      · dsimp only
        by_cases he : df.rows = []
        · rw [if_pos he]
        · rw [if_neg he]
          rcases h with h | h
          · rw [hg] at h
            dsimp only at h
            rw [List.isEmpty_iff] at h
            exact absurd h he
          · rw [ih h]

theorem extract_loop_some {fs : FileSys} {L : List (String × String)} {m : Assoc DF}
    (h : extract_loop fs L = some m) :
    m.map Prod.fst = L.map Prod.fst ∧ ∀ p ∈ m, p.2.rows ≠ [] := by
  induction L generalizing m with
  | nil =>
      unfold extract_loop at h
      injection h with h
      subst h
      exact ⟨rfl, by simp⟩
  | cons p L ih =>
      obtain ⟨name, filename⟩ := p
      unfold extract_loop load_csv at h
      rcases hg : aget fs.files filename with _ | df <;> rw [hg] at h
      · cases h
      · dsimp only at h
        by_cases he : df.rows = []
        · rw [if_pos he] at h
          cases h
        · rw [if_neg he] at h
          rcases hrest : extract_loop fs L with _ | m0 <;> rw [hrest] at h
          · cases h
          · injection h with h
            subst h
            obtain ⟨hkeys, hne⟩ := ih hrest
            refine ⟨by simp [hkeys], ?_⟩
            intro q hq
            rcases List.mem_cons.mp hq with rfl | hq
            · exact he
            · exact hne q hq

/-- C6: extraction fails (returns no mapping) when the input directory
does not exist or any expected file is missing or loads empty; on
success the returned mapping has exactly the six expected dataset names
in order, each dataset non-empty. -/
theorem c6_extraction_all_or_nothing (fs : FileSys) :
    ((fs.dirExists = false ∨ someInputMissing fs = true) → extract_all fs = none) ∧
    (match extract_all fs with
     | none => True
     | some m => m.map Prod.fst = EXPECTED_FILES.map Prod.fst ∧
         m.all (fun p => !p.2.rows.isEmpty) = true) := by
  constructor
  · rintro (hd | hm)
    · unfold extract_all
      rw [hd]
      rfl
    · unfold extract_all
      split
      · rw [extract_loop_none hm]
      · rfl
  · rcases hres : extract_all fs with _ | m
    · trivial
    · unfold extract_all at hres
      by_cases hdir : fs.dirExists = true
      · rw [if_pos hdir] at hres
        rcases hload : extract_loop fs EXPECTED_FILES with _ | m0 <;> rw [hload] at hres
        · cases hres
        · dsimp only at hres
          split at hres
          · injection hres with hres
            subst hres
            obtain ⟨hkeys, hne⟩ := extract_loop_some hload
            refine ⟨hkeys, ?_⟩
            rw [List.all_eq_true]
            intro p hp
            simpa using hne p hp
          · cases hres
      · rw [if_neg hdir] at hres
        cases hres

theorem c6_extraction_all_or_nothing_witness :
    extract_all fsMissing = none ∧
    (match extract_all fsFull with
     | none => True
     | some m => m.map Prod.fst = EXPECTED_FILES.map Prod.fst ∧
         m.all (fun p => !p.2.rows.isEmpty) = true) :=
  ⟨(c6_extraction_all_or_nothing fsMissing).1 (Or.inr (by decide)),
   (c6_extraction_all_or_nothing fsFull).2⟩

theorem getCell_of_forall_ne {row : Row} {c : Col} (h : ∀ p ∈ row, p.1 ≠ c) :
    getCell row c = .vnull := by
  induction row with
  | nil => rfl
  | cons p row ih =>
      obtain ⟨a, v⟩ := p
      rw [getCell_cons, if_neg (h (a, v) (by simp))]
      exact ih (fun q hq => h q (by simp [hq]))

/-- A cell at a label foreign to both sides of a merge is null. -/
theorem getCell_mergedRow_vnull {lcols rcols : List Col} (lr rr : Row) {c : Col}
    (hnl : c ∉ lcols) (hnr : c ∉ rcols)
    (hx : ∀ a : String, ¬a ++ "_x" = c) (hy : ∀ a : String, ¬a ++ "_y" = c) :
    getCell (mergedRow lcols rcols lr rr) c = .vnull := by
  apply getCell_of_forall_ne
  intro p hp
  unfold mergedRow at hp
  rcases List.mem_append.mp hp with h | h
  · exact keys_map_sfx_ne hnl (fun a _ _ => hx a) p h
  · exact keys_map_sfx_ne hnr (fun a _ _ => hy a) p h

/-- Propagation of a per-cell invariant through a merge when the label
belongs only to the left side (or to neither side). -/
theorem merge_keep {l r : DF} {lk rk : Col} {how : How} {m : DF} {c : Col}
    (hm : mergeDF l r lk rk how = some m) (hnr : c ∉ r.cols)
    (hx : ∀ a : String, ¬a ++ "_x" = c) (hy : ∀ a : String, ¬a ++ "_y" = c)
    {P : Val → Prop} (hnull : P Val.vnull) (hP : ∀ lr ∈ l.rows, P (getCell lr c)) :
    ∀ row ∈ m.rows, P (getCell row c) := by
  intro row hrow
  obtain ⟨lr, hlr, hcase⟩ := mem_mergeDF_rows hm hrow
  by_cases hcl : c ∈ l.cols
  · rcases hcase with ⟨rr, -, rfl⟩ | ⟨-, rfl⟩ <;>
      · rw [getCell_mergedRow_left _ _ hcl hnr (fun a _ => hx a)]
        exact hP lr hlr
  · rcases hcase with ⟨rr, -, rfl⟩ | ⟨-, rfl⟩ <;>
      · rw [getCell_mergedRow_vnull _ _ hcl hnr hx hy]
        exact hnull

/-- Initialisation of a per-cell invariant by a merge that brings the
label in from the right side. -/
theorem merge_init {l r : DF} {lk rk : Col} {how : How} {m : DF} {c : Col}
    (hm : mergeDF l r lk rk how = some m) (hcr : c ∈ r.cols) (hnl : c ∉ l.cols)
    (hx : ∀ a : String, ¬a ++ "_x" = c) (hy : ∀ a : String, ¬a ++ "_y" = c)
    {P : Val → Prop} (hnull : P Val.vnull) (hP : ∀ rr ∈ r.rows, P (getCell rr c)) :
    ∀ row ∈ m.rows, P (getCell row c) := by
  intro row hrow
  obtain ⟨lr, hlr, hcase⟩ := mem_mergeDF_rows hm hrow
  rcases hcase with ⟨rr, hrr, rfl⟩ | ⟨-, rfl⟩
  · rw [getCell_mergedRow_right _ _ hcr hnl (fun a _ => hx a) (fun a _ => hy a)]
    exact hP rr hrr
  · rw [getCell_mergedRow_right _ _ hcr hnl (fun a _ => hx a) (fun a _ => hy a)]
    exact hnull

theorem selectExisting_pres {df : DF} {cs : List Col} {c : Col} {P : Val → Prop}
    (hnull : P Val.vnull) (hP : ∀ r ∈ df.rows, P (getCell r c)) :
    ∀ row ∈ (selectExisting df cs).rows, P (getCell row c) := by
  intro row hrow
  obtain ⟨-, hrows⟩ := selectExisting_parts df cs
  rw [hrows] at hrow
  obtain ⟨r0, hr0, rfl⟩ := List.mem_map.mp hrow
  by_cases hc : c ∈ cs.filter (fun c => decide (c ∈ df.cols))
  · rw [getCell_normRow_mem _ _ hc]
    exact hP r0 hr0
  · rw [getCell_normRow_notMem _ _ hc]
    exact hnull

theorem selectCols_pres {df sel : DF} {cs : List Col} {c : Col} {P : Val → Prop}
    (h : selectCols df cs = some sel)
    (hnull : P Val.vnull) (hP : ∀ r ∈ df.rows, P (getCell r c)) :
    ∀ row ∈ sel.rows, P (getCell row c) := by
  intro row hrow
  obtain ⟨-, hrows, -⟩ := selectCols_parts h
  rw [hrows] at hrow
  obtain ⟨r0, hr0, rfl⟩ := List.mem_map.mp hrow
  by_cases hc : c ∈ cs
  · rw [getCell_normRow_mem _ _ hc]
    exact hP r0 hr0
  · rw [getCell_normRow_notMem _ _ hc]
    exact hnull

theorem renameCols_pres {df : DF} {mm : List (Col × Col)} {c : Col} {P : Val → Prop}
    (hs : ∀ p ∈ mm, p.1 ≠ c) (ht : ∀ p ∈ mm, p.2 ≠ c)
    (hP : ∀ r ∈ df.rows, P (getCell r c)) :
    ∀ row ∈ (renameCols df mm).rows, P (getCell row c) := by
  intro row hrow
  unfold renameCols at hrow
  obtain ⟨r0, hr0, rfl⟩ := List.mem_map.mp hrow
  rw [getCell_renameRow hs ht]
  exact hP r0 hr0

theorem assignCol_pres {df : DF} {c' : Col} {f : Row → Val} {c : Col} {P : Val → Prop}
    (hne : c' ≠ c) (hP : ∀ r ∈ df.rows, P (getCell r c)) :
    ∀ row ∈ (assignCol df c' f).rows, P (getCell row c) := by
  intro row hrow
  unfold assignCol at hrow
  obtain ⟨r0, hr0, rfl⟩ := List.mem_map.mp hrow
  rw [getCell_cons, if_neg hne]
  exact hP r0 hr0

/-- Cells of a column selected straight out of a dimension are values of
that dimension's column. -/
theorem selectCols_col_mem {df sel : DF} {cs : List Col} {c : Col}
    (h : selectCols df cs = some sel) (hc : c ∈ cs) :
    ∀ rr ∈ sel.rows, getCell rr c ∈ colVals df c := by
  intro rr hrr
  obtain ⟨-, hrows, -⟩ := selectCols_parts h
  rw [hrows] at hrr
  obtain ⟨r0, hr0, rfl⟩ := List.mem_map.mp hrr
  rw [getCell_normRow_mem _ _ hc]
  exact List.mem_map.mpr ⟨r0, hr0, rfl⟩

theorem aget_aset {α : Type} (m : Assoc α) (k c : String) (v : α) :
    aget (aset m k v) c = if k = c then some v else aget m c := by
  by_cases h : k = c
  · subst h
    rw [if_pos rfl]
    exact aget_aset_same m k v
  · rw [if_neg h]
    exact aget_aset_ne m v h

theorem aget_buildDims_tiempo (t du : DF) (dp de dv dc dca di : Option DF) :
    aget (buildDims t du dp de dv dc dca di) "dim_tiempo" = some t := by
  unfold buildDims
  rw [aget_asetOpt_ne _ _ _ _ (by decide), aget_asetOpt_ne _ _ _ _ (by decide),
    aget_asetOpt_ne _ _ _ _ (by decide), aget_asetOpt_ne _ _ _ _ (by decide),
    aget_asetOpt_ne _ _ _ _ (by decide), aget_asetOpt_ne _ _ _ _ (by decide)]
  rfl

theorem aget_buildDims_postulante (t du : DF) (dp de dv dc dca di : Option DF) :
    aget (buildDims t du dp de dv dc dca di) "dim_postulante" = dp := by
  unfold buildDims
  rw [aget_asetOpt_ne _ _ _ _ (by decide), aget_asetOpt_ne _ _ _ _ (by decide),
    aget_asetOpt_ne _ _ _ _ (by decide), aget_asetOpt_ne _ _ _ _ (by decide),
    aget_asetOpt_ne _ _ _ _ (by decide)]
  exact aget_asetOpt_same _ _ _ rfl

theorem aget_buildDims_vacante (t du : DF) (dp de dv dc dca di : Option DF) :
    aget (buildDims t du dp de dv dc dca di) "dim_vacante" = dv := by
  unfold buildDims
  rw [aget_asetOpt_ne _ _ _ _ (by decide), aget_asetOpt_ne _ _ _ _ (by decide),
    aget_asetOpt_ne _ _ _ _ (by decide)]
  apply aget_asetOpt_same
  rw [aget_asetOpt_ne _ _ _ _ (by decide), aget_asetOpt_ne _ _ _ _ (by decide)]
  rfl

theorem aget_buildDims_competencia (t du : DF) (dp de dv dc dca di : Option DF) :
    aget (buildDims t du dp de dv dc dca di) "dim_competencia" = dc := by
  unfold buildDims
  rw [aget_asetOpt_ne _ _ _ _ (by decide), aget_asetOpt_ne _ _ _ _ (by decide)]
  apply aget_asetOpt_same
  rw [aget_asetOpt_ne _ _ _ _ (by decide), aget_asetOpt_ne _ _ _ _ (by decide),
    aget_asetOpt_ne _ _ _ _ (by decide)]
  rfl

theorem aget_buildFacts_formacion (f1 f2 f3 f4 f5 : Option DF) :
    aget (buildFacts f1 f2 f3 f4 f5) "hechos_formacion" = f2 := by
  unfold buildFacts
  rw [aget_asetOpt_ne _ _ _ _ (by decide), aget_asetOpt_ne _ _ _ _ (by decide),
    aget_asetOpt_ne _ _ _ _ (by decide)]
  apply aget_asetOpt_same
  rw [aget_asetOpt_ne _ _ _ _ (by decide)]
  rfl

theorem aget_buildFacts_experiencia (f1 f2 f3 f4 f5 : Option DF) :
    aget (buildFacts f1 f2 f3 f4 f5) "hechos_experiencia" = f3 := by
  unfold buildFacts
  rw [aget_asetOpt_ne _ _ _ _ (by decide), aget_asetOpt_ne _ _ _ _ (by decide)]
  apply aget_asetOpt_same
  rw [aget_asetOpt_ne _ _ _ _ (by decide), aget_asetOpt_ne _ _ _ _ (by decide)]
  rfl

theorem aget_buildFacts_vacante (f1 f2 f3 f4 f5 : Option DF) :
    aget (buildFacts f1 f2 f3 f4 f5) "hechos_vacante" = f4 := by
  unfold buildFacts
  rw [aget_asetOpt_ne _ _ _ _ (by decide)]
  apply aget_asetOpt_same
  rw [aget_asetOpt_ne _ _ _ _ (by decide), aget_asetOpt_ne _ _ _ _ (by decide),
    aget_asetOpt_ne _ _ _ _ (by decide)]
  rfl

theorem aget_buildFacts_competencia (f1 f2 f3 f4 f5 : Option DF) :
    aget (buildFacts f1 f2 f3 f4 f5) "hechos_competencia_requerida" = f5 := by
  unfold buildFacts
  apply aget_asetOpt_same
  rw [aget_asetOpt_ne _ _ _ _ (by decide), aget_asetOpt_ne _ _ _ _ (by decide),
    aget_asetOpt_ne _ _ _ _ (by decide), aget_asetOpt_ne _ _ _ _ (by decide)]
  rfl

/-- The competency dimension always has exactly the two canonical
columns. -/
theorem dimCompetenciaCore_cols {m : Assoc DF} {d : DF} {w : List String}
    (h : dimCompetenciaCore m = some (some d, w)) :
    d.cols = ["competencia_sk", "nombre_competencia"] := by
  unfold dimCompetenciaCore at h
  rcases hg : aget m "competencias" with _ | df <;> rw [hg] at h
  · simp at h
  · dsimp only at h
    by_cases hc : "NOMBRECOMPETENCIA" ∈ df.cols
    · rw [if_pos hc] at h
      rw [Option.bind_eq_bind', Option.bind_eq_some] at h
      obtain ⟨sel, hsel, h⟩ := h
      injection h with h
      rw [Prod.mk.injEq] at h
      obtain ⟨h, -⟩ := h
      injection h with h
      subst h
      obtain ⟨hc', -, -⟩ := selectCols_parts hsel
      show ((insertSk (dropDuplicates sel) "competencia_sk").cols.map _) = _
      rw [show (insertSk (dropDuplicates sel) "competencia_sk").cols
        = "competencia_sk" :: sel.cols from rfl, hc']
      rfl
    · rw [if_neg hc] at h
      simp at h

/-- An optional dimension-merge step preserves a column property when
the column is foreign to the selected dimension slice. -/
theorem optDimMerge_keep {dims : Assoc DF} {dn : String} {cs : List Col}
    {lk rk : Col} {h1 h2 : DF} {c : Col}
    (h : optDimMerge dims dn cs lk rk h1 = some h2)
    (hcs : c ∉ cs)
    (hx : ∀ a : String, ¬a ++ "_x" = c) (hy : ∀ a : String, ¬a ++ "_y" = c)
    {P : Val → Prop} (hnull : P Val.vnull)
    (hP : ∀ rr ∈ h1.rows, P (getCell rr c)) :
    ∀ row ∈ h2.rows, P (getCell row c) := by
  unfold optDimMerge at h
  rcases hmd : aget dims dn with _ | dimD <;> rw [hmd] at h
  · injection h with h
    subst h
    exact hP
  · dsimp only at h
    by_cases hlk : lk ∈ h1.cols
    · rw [if_pos hlk] at h
      rw [Option.bind_eq_bind', Option.bind_eq_some] at h
      obtain ⟨selD, hselD, h⟩ := h
      apply merge_keep h _ hx hy hnull hP
      obtain ⟨hc, -, -⟩ := selectCols_parts hselD
      rw [hc]
      exact hcs
    · rw [if_neg hlk] at h
      injection h with h
      subst h
      exact hP

/-- FK integrity of `hechos_formacion` toward `dim_postulante`. -/
theorem hechosFormacionCore_fk {ds dims : Assoc DF} {f : DF} {w : List String}
    (h : hechosFormacionCore ds dims = some (some f, w))
    (hno : ∀ dfe, aget ds "educacion" = some dfe → "postulante_sk" ∉ dfe.cols) :
    ∀ r ∈ f.rows, fkP dims "dim_postulante" "postulante_sk"
      (getCell r "postulante_sk") := by
  unfold hechosFormacionCore at h
  rcases hg : aget ds "educacion" with _ | dfe <;> rw [hg] at h
  · simp at h
  · dsimp only at h
    rw [Option.bind_eq_bind', Option.bind_eq_some] at h
    obtain ⟨dimPost, hdim, h⟩ := h
    rw [Option.bind_eq_bind', Option.bind_eq_some] at h
    obtain ⟨sel, hsel, h⟩ := h
    rw [Option.bind_eq_bind', Option.bind_eq_some] at h
    obtain ⟨h1, hm1, h⟩ := h
    rw [Option.bind_eq_bind', Option.bind_eq_some] at h
    obtain ⟨h2, hm2, h⟩ := h
    rw [Option.bind_eq_bind', Option.bind_eq_some] at h
    obtain ⟨h3, hm3, h⟩ := h
    injection h with h
    rw [Prod.mk.injEq] at h
    obtain ⟨h, -⟩ := h
    injection h with h
    subst h
    have hdc : dimColOf dims "dim_postulante" "postulante_sk"
        = colVals dimPost "postulante_sk" := by
      unfold dimColOf
      rw [hdim]
    have hnull : fkP dims "dim_postulante" "postulante_sk" Val.vnull := Or.inl rfl
    have hP1 : ∀ row ∈ h1.rows,
        fkP dims "dim_postulante" "postulante_sk" (getCell row "postulante_sk") := by
      apply merge_init hm1
      · obtain ⟨hc, -, -⟩ := selectCols_parts hsel
        rw [hc]
        simp
      · exact hno dfe hg
      · exact ne_append_of_not_suffix (by decide)
      · exact ne_append_of_not_suffix (by decide)
      · exact hnull
      · intro rr hrr
        exact Or.inr (hdc ▸ selectCols_col_mem hsel (by simp) rr hrr)
    have hP2 : ∀ row ∈ h2.rows,
        fkP dims "dim_postulante" "postulante_sk" (getCell row "postulante_sk") :=
      optDimMerge_keep hm2 (by decide) (ne_append_of_not_suffix (by decide))
        (ne_append_of_not_suffix (by decide)) hnull hP1
    have hP3 : ∀ row ∈ h3.rows,
        fkP dims "dim_postulante" "postulante_sk" (getCell row "postulante_sk") :=
      optDimMerge_keep hm3 (by decide) (ne_append_of_not_suffix (by decide))
        (ne_append_of_not_suffix (by decide)) hnull hP2
    intro r hr
    exact selectExisting_pres hnull hP3 r (mem_rows_dropDuplicates hr)

/-- FK integrity of `hechos_experiencia` toward `dim_postulante`. -/
theorem hechosExperienciaCore_fk {ds dims : Assoc DF} {f : DF} {w : List String}
    (h : hechosExperienciaCore ds dims = some (some f, w))
    (hno : ∀ dfx, aget ds "experiencias" = some dfx → "postulante_sk" ∉ dfx.cols) :
    ∀ r ∈ f.rows, fkP dims "dim_postulante" "postulante_sk"
      (getCell r "postulante_sk") := by
  unfold hechosExperienciaCore at h
  rcases hg : aget ds "experiencias" with _ | dfx <;> rw [hg] at h
  · simp at h
  · dsimp only at h
    rw [Option.bind_eq_bind', Option.bind_eq_some] at h
    obtain ⟨dimPost, hdim, h⟩ := h
    rw [Option.bind_eq_bind', Option.bind_eq_some] at h
    obtain ⟨sel, hsel, h⟩ := h
    rw [Option.bind_eq_bind', Option.bind_eq_some] at h
    obtain ⟨h1, hm1, h⟩ := h
    rw [Option.bind_eq_bind', Option.bind_eq_some] at h
    obtain ⟨h2, hsel2, h⟩ := h
    rw [Option.bind_eq_bind', Option.bind_eq_some] at h
    obtain ⟨h3, hsub, h⟩ := h
    rw [Option.bind_eq_bind', Option.bind_eq_some] at h
    obtain ⟨h4, hcast, h⟩ := h
    injection h with h
    rw [Prod.mk.injEq] at h
    obtain ⟨h, -⟩ := h
    injection h with h
    subst h
    have hdc : dimColOf dims "dim_postulante" "postulante_sk"
        = colVals dimPost "postulante_sk" := by
      unfold dimColOf
      rw [hdim]
    have hnull : fkP dims "dim_postulante" "postulante_sk" Val.vnull := Or.inl rfl
    have hP1 : ∀ row ∈ h1.rows,
        fkP dims "dim_postulante" "postulante_sk" (getCell row "postulante_sk") := by
      apply merge_init hm1
      · obtain ⟨hc, -, -⟩ := selectCols_parts hsel
        rw [hc]
        simp
      · exact hno dfx hg
      · exact ne_append_of_not_suffix (by decide)
      · exact ne_append_of_not_suffix (by decide)
      · exact hnull
      · intro rr hrr
        exact Or.inr (hdc ▸ selectCols_col_mem hsel (by simp) rr hrr)
    have hP2 : ∀ row ∈ h2.rows,
        fkP dims "dim_postulante" "postulante_sk" (getCell row "postulante_sk") :=
      selectCols_pres hsel2 hnull hP1
    rw [castIntCol_eq hcast]
    intro r hr
    obtain ⟨-, hsubset⟩ := dropnaSub_parts hsub
    exact hP2 r (mem_rows_dropDuplicates (hsubset r hr))

/-- A label foreign to both sides of a merge (and clashing with no
suffixed overlap label) is absent from the merged columns. -/
theorem not_mem_mergeCols {lcols rcols : List Col} {c : Col}
    (hl : c ∉ lcols) (hr : c ∉ rcols)
    (hx : ∀ a : String, ¬a ++ "_x" = c) (hy : ∀ a : String, ¬a ++ "_y" = c) :
    c ∉ mergeCols lcols rcols := by
  intro hmem
  rcases List.mem_append.mp hmem with h | h <;> obtain ⟨a, ha, he⟩ := List.mem_map.mp h
  · by_cases hao : a ∈ mergeOv lcols rcols
    · simp only [sfx, if_pos hao] at he
      exact hx a he
    · simp only [sfx, if_neg hao] at he
      exact hl (he ▸ ha)
  · by_cases hao : a ∈ mergeOv lcols rcols
    · simp only [sfx, if_pos hao] at he
      exact hy a he
    · simp only [sfx, if_neg hao] at he
      exact hr (he ▸ ha)

theorem castIfPresent_eq {df df' : DF} {c : Col} (h : castIfPresent df c = some df') :
    df' = df := by
  unfold castIfPresent at h
  split at h
  · exact castIntCol_eq h
  · injection h with h
    exact h.symm

/-- The publication-date step preserves a per-cell property of any
column it does not touch. -/
theorem vacTiempoStep_keep {dims : Assoc DF} {df : DF} {colsF : List Col}
    {p : DF × List Col} {c : Col}
    (h : vacTiempoStep dims df colsF = some p)
    (hcf : c ≠ "FECHACREACION") (hfn : c ≠ "fecha_normalizada")
    (hfp : c ≠ "fecha_publicacion_sk") (hsf : c ∉ (["fecha_sk", "fecha"] : List Col))
    (hx : ∀ a : String, ¬a ++ "_x" = c) (hy : ∀ a : String, ¬a ++ "_y" = c)
    {P : Val → Prop} (hnull : P Val.vnull)
    (hP : ∀ rr ∈ df.rows, P (getCell rr c)) :
    ∀ row ∈ p.1.rows, P (getCell row c) := by
  unfold vacTiempoStep at h
  rcases hmt : aget dims "dim_tiempo" with _ | dimT <;> rw [hmt] at h
  · injection h with h
    subst h
    exact hP
  · dsimp only at h
    by_cases hfc : "FECHACREACION" ∈ df.cols
    · rw [if_pos hfc] at h
      rw [Option.bind_eq_bind', Option.bind_eq_some] at h
      obtain ⟨selT, hselT, h⟩ := h
      rw [Option.bind_eq_bind', Option.bind_eq_some] at h
      obtain ⟨t3, hm3, h⟩ := h
      have hPt3 : ∀ rr ∈ t3.rows, P (getCell rr c) := by
        apply merge_keep hm3 _ hx hy hnull
        · exact assignCol_pres (Ne.symm hfn) (assignCol_pres (Ne.symm hcf) hP)
        · obtain ⟨hc, -, -⟩ := selectCols_parts hselT
          rw [hc]
          exact hsf
      split at h
      · injection h with h
        subst h
        exact assignCol_pres (Ne.symm hfp) hPt3
      · cases h
    · rw [if_neg hfc] at h
      injection h with h
      subst h
      exact hP

/-- The `activo` step preserves a per-cell property of any other
column. -/
theorem activoStep_keep {p : DF × List Col} {c : Col}
    (hca : c ≠ "ACTIVO") (hac : c ≠ "activo")
    {P : Val → Prop} (hP : ∀ rr ∈ p.1.rows, P (getCell rr c)) :
    ∀ row ∈ (activoStep p).1.rows, P (getCell row c) := by
  unfold activoStep
  split
  · dsimp only
    refine renameCols_pres ?_ ?_ hP
    · intro q hq
      rw [List.mem_singleton] at hq
      subst hq
      exact Ne.symm hca
    · intro q hq
      rw [List.mem_singleton] at hq
      subst hq
      exact Ne.symm hac
  · dsimp only
    exact assignCol_pres (Ne.symm hac) hP

/-- FK integrity of `hechos_vacante` toward `dim_vacante`. -/
theorem hechosVacanteCore_fk {ds dims : Assoc DF} {f : DF} {w : List String}
    (h : hechosVacanteCore ds dims = some (some f, w))
    (hno : ∀ dfv, aget ds "vacantes" = some dfv → "vacante_sk" ∉ dfv.cols) :
    ∀ r ∈ f.rows, fkP dims "dim_vacante" "vacante_sk"
      (getCell r "vacante_sk") := by
  unfold hechosVacanteCore at h
  rcases hg : aget ds "vacantes" with _ | dfv <;> rw [hg] at h
  · simp at h
  · dsimp only at h
    rw [Option.bind_eq_bind', Option.bind_eq_some] at h
    obtain ⟨dimVac, hdimv, h⟩ := h
    rw [Option.bind_eq_bind', Option.bind_eq_some] at h
    obtain ⟨sel, hsel, h⟩ := h
    rw [Option.bind_eq_bind', Option.bind_eq_some] at h
    obtain ⟨h1, hm1, h⟩ := h
    rw [Option.bind_eq_bind', Option.bind_eq_some] at h
    obtain ⟨h2, hm2, h⟩ := h
    rw [Option.bind_eq_bind', Option.bind_eq_some] at h
    obtain ⟨h3, hm3, h⟩ := h
    rw [Option.bind_eq_bind', Option.bind_eq_some] at h
    obtain ⟨p, hpt, h⟩ := h
    rw [Option.bind_eq_bind', Option.bind_eq_some] at h
    obtain ⟨h7, hc7, h⟩ := h
    rw [Option.bind_eq_bind', Option.bind_eq_some] at h
    obtain ⟨h8, hc8, h⟩ := h
    rw [Option.bind_eq_bind', Option.bind_eq_some] at h
    obtain ⟨h9, hc9, h⟩ := h
    injection h with h
    rw [Prod.mk.injEq] at h
    obtain ⟨h, -⟩ := h
    injection h with h
    subst h
    have hdc : dimColOf dims "dim_vacante" "vacante_sk"
        = colVals dimVac "vacante_sk" := by
      unfold dimColOf
      rw [hdimv]
    have hnull : fkP dims "dim_vacante" "vacante_sk" Val.vnull := Or.inl rfl
    have hv1 : ∀ row ∈ h1.rows,
        fkP dims "dim_vacante" "vacante_sk" (getCell row "vacante_sk") := by
      apply merge_init hm1
      · obtain ⟨hc, -, -⟩ := selectCols_parts hsel
        rw [hc]
        simp
      · exact hno dfv hg
      · exact ne_append_of_not_suffix (by decide)
      · exact ne_append_of_not_suffix (by decide)
      · exact hnull
      · intro rr hrr
        exact Or.inr (hdc ▸ selectCols_col_mem hsel (by simp) rr hrr)
    have hv2 : ∀ row ∈ h2.rows,
        fkP dims "dim_vacante" "vacante_sk" (getCell row "vacante_sk") :=
      optDimMerge_keep hm2 (by decide) (ne_append_of_not_suffix (by decide))
        (ne_append_of_not_suffix (by decide)) hnull hv1
    have hv3 : ∀ row ∈ h3.rows,
        fkP dims "dim_vacante" "vacante_sk" (getCell row "vacante_sk") :=
      optDimMerge_keep hm3 (by decide) (ne_append_of_not_suffix (by decide))
        (ne_append_of_not_suffix (by decide)) hnull hv2
    have hvp : ∀ row ∈ p.1.rows,
        fkP dims "dim_vacante" "vacante_sk" (getCell row "vacante_sk") :=
      vacTiempoStep_keep hpt (by decide) (by decide) (by decide) (by decide)
        (ne_append_of_not_suffix (by decide)) (ne_append_of_not_suffix (by decide))
        hnull hv3
    have hvq : ∀ row ∈ (activoStep p).1.rows,
        fkP dims "dim_vacante" "vacante_sk" (getCell row "vacante_sk") :=
      activoStep_keep (by decide) (by decide) hvp
    obtain rfl := castIfPresent_eq hc9
    obtain rfl := castIfPresent_eq hc8
    obtain rfl := castIfPresent_eq hc7
    intro r hr
    exact selectExisting_pres hnull hvq r
      (mem_rows_dropDuplicates (mem_rows_dropnaAll hr))

/-- FK integrity of `hechos_competencia_requerida` toward both
`dim_vacante` and `dim_competencia`. -/
theorem hechosCompetenciaCore_fk {ds dims : Assoc DF} {f : DF} {w : List String}
    (h : hechosCompetenciaCore ds dims = some (some f, w))
    (hno : ∀ dfc, aget ds "competencias" = some dfc →
      "vacante_sk" ∉ dfc.cols ∧ "competencia_sk" ∉ dfc.cols)
    (hcols : ∀ dimC, aget dims "dim_competencia" = some dimC →
      dimC.cols = ["competencia_sk", "nombre_competencia"]) :
    ∀ r ∈ f.rows,
      fkP dims "dim_vacante" "vacante_sk" (getCell r "vacante_sk") ∧
      fkP dims "dim_competencia" "competencia_sk" (getCell r "competencia_sk") := by
  unfold hechosCompetenciaCore at h
  rcases hg : aget ds "competencias" with _ | dfc <;> rw [hg] at h
  · simp at h
  · dsimp only at h
    rw [Option.bind_eq_bind', Option.bind_eq_some] at h
    obtain ⟨dimVac, hdimv, h⟩ := h
    rw [Option.bind_eq_bind', Option.bind_eq_some] at h
    obtain ⟨sel, hsel, h⟩ := h
    rw [Option.bind_eq_bind', Option.bind_eq_some] at h
    obtain ⟨h1, hm1, h⟩ := h
    rw [Option.bind_eq_bind', Option.bind_eq_some] at h
    obtain ⟨h2, hmc, h⟩ := h
    rw [Option.bind_eq_bind', Option.bind_eq_some] at h
    obtain ⟨h3, hsel3, h⟩ := h
    rw [Option.bind_eq_bind', Option.bind_eq_some] at h
    obtain ⟨h4, hcast4, h⟩ := h
    rw [Option.bind_eq_bind', Option.bind_eq_some] at h
    obtain ⟨h5, hcast5, h⟩ := h
    injection h with h
    rw [Prod.mk.injEq] at h
    obtain ⟨h, -⟩ := h
    injection h with h
    subst h
    have hdcv : dimColOf dims "dim_vacante" "vacante_sk"
        = colVals dimVac "vacante_sk" := by
      unfold dimColOf
      rw [hdimv]
    have hnullv : fkP dims "dim_vacante" "vacante_sk" Val.vnull := Or.inl rfl
    have hnullc : fkP dims "dim_competencia" "competencia_sk" Val.vnull := Or.inl rfl
    have hv1 : ∀ row ∈ h1.rows,
        fkP dims "dim_vacante" "vacante_sk" (getCell row "vacante_sk") := by
      apply merge_init hm1
      · obtain ⟨hc, -, -⟩ := selectCols_parts hsel
        rw [hc]
        simp
      · exact (hno dfc hg).1
      · exact ne_append_of_not_suffix (by decide)
      · exact ne_append_of_not_suffix (by decide)
      · exact hnullv
      · intro rr hrr
        exact Or.inr (hdcv ▸ selectCols_col_mem hsel (by simp) rr hrr)
    have hnc1 : "competencia_sk" ∉ h1.cols := by
      obtain ⟨hcols1, -, -, -⟩ := mergeDF_parts hm1
      rw [hcols1]
      apply not_mem_mergeCols (hno dfc hg).2
      · obtain ⟨hc, -, -⟩ := selectCols_parts hsel
        rw [hc]
        decide
      · exact ne_append_of_not_suffix (by decide)
      · exact ne_append_of_not_suffix (by decide)
    have hck : "competencia_sk" ∈ h2.cols := (selectCols_parts hsel3).2.2 _ (by simp)
    have hstep : (∀ row ∈ h2.rows,
          fkP dims "dim_vacante" "vacante_sk" (getCell row "vacante_sk")) ∧
        ∀ row ∈ h2.rows,
          fkP dims "dim_competencia" "competencia_sk" (getCell row "competencia_sk") := by
      unfold competenciaMerge at hmc
      rcases hg2 : aget dims "dim_competencia" with _ | dimC <;> rw [hg2] at hmc
      · injection hmc with hmc
        subst hmc
        exact absurd hck hnc1
      · dsimp only at hmc
        by_cases hnb : "NOMBRECOMPETENCIA" ∈ h1.cols
        · rw [if_pos hnb] at hmc
          have hdcc : dimColOf dims "dim_competencia" "competencia_sk"
              = colVals dimC "competencia_sk" := by
            unfold dimColOf
            rw [hg2]
          constructor
          · apply merge_keep hmc _ (ne_append_of_not_suffix (by decide))
              (ne_append_of_not_suffix (by decide)) hnullv hv1
            rw [hcols dimC hg2]
            decide
          · apply merge_init hmc
            · rw [hcols dimC hg2]
              decide
            · exact hnc1
            · exact ne_append_of_not_suffix (by decide)
            · exact ne_append_of_not_suffix (by decide)
            · exact hnullc
            · intro rr hrr
              exact Or.inr (hdcc ▸ List.mem_map.mpr ⟨rr, hrr, rfl⟩)
        · rw [if_neg hnb] at hmc
          injection hmc with hmc
          subst hmc
          exact absurd hck hnc1
    obtain ⟨hv2, hc2⟩ := hstep
    have hv3 : ∀ row ∈ h3.rows,
        fkP dims "dim_vacante" "vacante_sk" (getCell row "vacante_sk") :=
      selectCols_pres hsel3 hnullv hv2
    have hc3 : ∀ row ∈ h3.rows,
        fkP dims "dim_competencia" "competencia_sk" (getCell row "competencia_sk") :=
      selectCols_pres hsel3 hnullc hc2
    obtain rfl := castIntCol_eq hcast5
    obtain rfl := castIntCol_eq hcast4
    intro r hr
    exact ⟨hv3 r (mem_rows_dropnaAll hr), hc3 r (mem_rows_dropnaAll hr)⟩

theorem mem_of_aget {α : Type} {m : Assoc α} {k : String} {v : α}
    (h : aget m k = some v) : (k, v) ∈ m := by
  induction m with
  | nil => cases h
  | cons p m' ih =>
      obtain ⟨k', v'⟩ := p
      unfold aget at h
      split at h
      next hk =>
        injection h with h
        subst hk
        subst h
        exact List.mem_cons_self _ _
      next => exact List.mem_cons_of_mem _ (ih h)

/-- `noSkColumns` read back: no table reachable through the map carries a
reserved surrogate-key label. -/
theorem noSkColumns_spec {m : Assoc DF} (hno : noSkColumns m = true) {k : String}
    {df : DF} (h : aget m k = some df) {c : Col} (hc : c ∈ skFkCols) :
    c ∉ df.cols := by
  intro hcc
  unfold noSkColumns at hno
  rw [List.all_eq_true] at hno
  have h1 := hno (k, df) (mem_of_aget h)
  dsimp only at h1
  rw [List.all_eq_true] at h1
  have h2 := h1 c hcc
  rw [decide_eq_true_eq] at h2
  exact h2 hc

/-- The orphan reconciler never introduces a column outside
`placeholderCols` into any dataset. -/
theorem reconcileCore_keep {today : Date} {m m' : Assoc DF}
    {stats : Option OrphanStats} {ws : List String}
    (h : reconcileCore today m = some (m', stats, ws)) {k : String} {c : Col}
    (hph : c ∉ placeholderCols)
    (hm : ∀ df, aget m k = some df → c ∉ df.cols) :
    ∀ df, aget m' k = some df → c ∉ df.cols := by
  unfold reconcileCore at h
  rcases hgc : aget m "competencias" with _ | dfc <;>
    rcases hgv : aget m "vacantes" with _ | dfv <;>
    rw [hgc, hgv] at h
  · injection h with h
    rw [Prod.mk.injEq] at h
    obtain ⟨h, -⟩ := h
    subst h
    exact hm
  · injection h with h
    rw [Prod.mk.injEq] at h
    obtain ⟨h, -⟩ := h
    subst h
    exact hm
  · injection h with h
    rw [Prod.mk.injEq] at h
    obtain ⟨h, -⟩ := h
    subst h
    exact hm
  · dsimp only at h
    by_cases hav : "AVISOID" ∈ dfc.cols ∧ "AVISOID" ∈ dfv.cols
    · rw [if_pos hav] at h
      by_cases hlen : 0 < (orphanIds dfc dfv).length
      · rw [if_pos hlen] at h
        injection h with h
        rw [Prod.mk.injEq] at h
        obtain ⟨h, -⟩ := h
        subst h
        intro df hdf
        rw [aget_aset] at hdf
        by_cases hk : "vacantes" = k
        · rw [if_pos hk] at hdf
          injection hdf with hdf
          subst hdf
          intro hcc
          rw [concatDF_cols, List.mem_append] at hcc
          rcases hcc with hcc | hcc
          · exact hm dfv (hk ▸ hgv) hcc
          · exact hph (List.mem_filter.mp hcc).1
        · rw [if_neg hk] at hdf
          exact hm df hdf
      · rw [if_neg hlen] at h
        injection h with h
        rw [Prod.mk.injEq] at h
        obtain ⟨h, -⟩ := h
        subst h
        exact hm
    · rw [if_neg hav] at h
      cases h

/-- C4: every fact table built with an inner-join dependency on a
dimension (`hechos_formacion` and `hechos_experiencia` on
`dim_postulante`; `hechos_vacante` and `hechos_competencia_requerida`
on `dim_vacante`; `hechos_competencia_requerida` on `dim_competencia`)
carries zero orphan foreign keys: every non-null value in the foreign-key
column exists in the dimension's surrogate-key column.  The input
datasets are cleaned data and carry no reserved surrogate-key columns. -/
theorem c4_fk_integrity (today : Date) (ds0 : Assoc DF) (st : TState)
    (h : transformState today ds0 = some st)
    (hno : noSkColumns ds0 = true) :
    allFkOk st.dims st.facts = true := by
  obtain ⟨t, du, dp, w3, de, w4, dv, w5, dc, w6, dca, w7, di, w8, ds1, stats, wR,
    f1, wf1, f2, wf2, f3, wf3, f4, wf4, f5, wf5,
    h0, h1, h2, h3, h4, h5, h6, h7, h8, h9, h10, h11, h12, h13,
    hds, hdims, hfacts, hstats⟩ := transformState_inv h
  have hkeep : ∀ (k : String) (c : Col), c ∈ skFkCols → c ∉ placeholderCols →
      ∀ df, aget ds1 k = some df → c ∉ df.cols := fun k c hc hph =>
    reconcileCore_keep h8 hph (fun df hdf => noSkColumns_spec hno hdf hc)
  have hcols : ∀ dimC, aget (buildDims t du dp de dv dc dca di)
      "dim_competencia" = some dimC →
      dimC.cols = ["competencia_sk", "nombre_competencia"] := by
    intro dimC hdimC
    rw [aget_buildDims_competencia] at hdimC
    subst hdimC
    exact dimCompetenciaCore_cols h5
  rw [hdims, hfacts]
  unfold allFkOk fkPairs
  simp only [List.all_cons, List.all_nil, Bool.and_true, Bool.and_eq_true]
  refine ⟨?_, ?_, ?_, ?_, ?_⟩
  · unfold fkOkB
    rw [aget_buildFacts_formacion]
    rcases f2 with _ | f
    · rfl
    · dsimp only
      rw [List.all_eq_true]
      intro r hr
      rw [decide_eq_true_eq]
      exact hechosFormacionCore_fk h10
        (fun dfe hdfe => hkeep "educacion" "postulante_sk" (by decide) (by decide)
          dfe hdfe) r hr
  · unfold fkOkB
    rw [aget_buildFacts_experiencia]
    rcases f3 with _ | f
    · rfl
    · dsimp only
      rw [List.all_eq_true]
      intro r hr
      rw [decide_eq_true_eq]
      exact hechosExperienciaCore_fk h11
        (fun dfx hdfx => hkeep "experiencias" "postulante_sk" (by decide) (by decide)
          dfx hdfx) r hr
  · unfold fkOkB
    rw [aget_buildFacts_vacante]
    rcases f4 with _ | f
    · rfl
    · dsimp only
      rw [List.all_eq_true]
      intro r hr
      rw [decide_eq_true_eq]
      exact hechosVacanteCore_fk h12
        (fun dfv' hdfv => hkeep "vacantes" "vacante_sk" (by decide) (by decide)
          dfv' hdfv) r hr
  · unfold fkOkB
    rw [aget_buildFacts_competencia]
    rcases f5 with _ | f
    · rfl
    · dsimp only
      rw [List.all_eq_true]
      intro r hr
      rw [decide_eq_true_eq]
      exact (hechosCompetenciaCore_fk h13
        (fun dfc hdfc => ⟨hkeep "competencias" "vacante_sk" (by decide) (by decide)
            dfc hdfc,
          hkeep "competencias" "competencia_sk" (by decide) (by decide) dfc hdfc⟩)
        hcols r hr).1
  · unfold fkOkB
    rw [aget_buildFacts_competencia]
    rcases f5 with _ | f
    · rfl
    · dsimp only
      rw [List.all_eq_true]
      intro r hr
      rw [decide_eq_true_eq]
      exact (hechosCompetenciaCore_fk h13
        (fun dfc hdfc => ⟨hkeep "competencias" "vacante_sk" (by decide) (by decide)
            dfc hdfc,
          hkeep "competencias" "competencia_sk" (by decide) (by decide) dfc hdfc⟩)
        hcols r hr).2

theorem c4_fk_integrity_witness :
    noSkColumns dsOrphan = true ∧ allFkOk stOrphan.dims stOrphan.facts = true :=
  ⟨by decide, c4_fk_integrity todayRun dsOrphan stOrphan (by rfl) (by decide)⟩

theorem toDatetime_valid {v : Val} {p : Date × Nat} (h : toDatetime v = some p) :
    p.1.valid := by
  unfold toDatetime at h
  split at h
  next d s =>
    split at h
    next hv =>
      injection h with h
      subst h
      exact hv
    next => cases h
  next => cases h

theorem collectFechas_valid (m : Assoc DF) : ∀ p ∈ collectFechas m, p.1.valid := by
  intro p hp
  unfold collectFechas at hp
  rcases List.mem_append.mp hp with hp | hp <;>
  · unfold dateColsOf at hp
    split at hp
    · cases hp
    · obtain ⟨sub, hsub, hmem⟩ := List.mem_flatten.mp hp
      obtain ⟨c, -, rfl⟩ := List.mem_map.mp hsub
      split at hmem
      · obtain ⟨r, -, hr⟩ := List.mem_filterMap.mp hmem
        exact toDatetime_valid hr
      · cases hmem

theorem fechasUnicas_valid (m : Assoc DF) : ∀ d ∈ fechasUnicas m, d.valid := by
  intro d hd
  unfold fechasUnicas at hd
  rw [(List.perm_insertionSort _ _).mem_iff, List.mem_dedup] at hd
  obtain ⟨p, hp, rfl⟩ := List.mem_map.mp hd
  exact collectFechas_valid m p hp

theorem fechaDates_mkTiempoRows (k : Nat) (ds : List Date) :
    (mkTiempoRows k ds).filterMap (fun r =>
      match getCell r "fecha" with
      | .vdate d 0 => some d
      | _ => none) = ds := by
  induction ds generalizing k with
  | nil => rfl
  | cons d ds ih =>
      have hc : getCell (mkTiempoRow k d) "fecha" = Val.vdate d 0 := rfl
      rw [mkTiempoRows, List.filterMap_cons, hc]
      exact congrArg (d :: ·) (ih (k + 1))

theorem dimTiempoCore_parts {m : Assoc DF} {dt : DF}
    (h : dimTiempoCore m = some dt) :
    dt = ⟨tiempoCols, mkTiempoRows 1 (fechasUnicas m)⟩ := by
  unfold dimTiempoCore at h
  split at h
  · cases h
  · injection h with h
    exact h.symm

theorem fechaDates_dimTiempo {m : Assoc DF} {dt : DF}
    (h : dimTiempoCore m = some dt) :
    fechaDates dt = fechasUnicas m := by
  rw [dimTiempoCore_parts h]
  exact fechaDates_mkTiempoRows 1 (fechasUnicas m)

theorem tiempoRowOk_mkTiempoRow (k : Nat) {d : Date} (hv : d.valid) :
    tiempoRowOk (mkTiempoRow k d) = true := by
  obtain ⟨hy, hm1, hm12, hd1, hd31⟩ := hv
  show decide _ = true
  rw [decide_eq_true_eq]
  refine ⟨rfl, rfl, rfl, rfl, ?_, ?_, rfl, rfl, ?_, ?_, rfl⟩
  · unfold Date.quarter
    omega
  · unfold Date.quarter
    omega
  · unfold Date.dowMon0
    have h1 := Int.emod_nonneg (d.toDays + 3) (by norm_num : (7 : Int) ≠ 0)
    omega
  · unfold Date.dowMon0
    have h2 := Int.emod_lt_of_pos (d.toDays + 3) (by norm_num : (0 : Int) < 7)
    omega

theorem mkTiempoRows_all_ok (k : Nat) (ds : List Date) (hv : ∀ d ∈ ds, d.valid) :
    (mkTiempoRows k ds).all tiempoRowOk = true := by
  induction ds generalizing k with
  | nil => rfl
  | cons d ds ih =>
      rw [mkTiempoRows, List.all_cons,
        tiempoRowOk_mkTiempoRow k (hv d (List.mem_cons_self _ _)), Bool.true_and]
      exact ih (k + 1) (fun d' hd' => hv d' (List.mem_cons_of_mem _ hd'))

/-- C8: `dim_tiempo` holds one row per distinct calendar day parsed from
the date columns of the job-posting and education datasets (time of day
discarded by construction, unparseable cells dropped); its rows are
strictly ascending by date, `fecha_sk` is `1..n` in that order, and in
every row the quarter lies in `1..4`, `semestre` is `1` exactly for
quarters `1`-`2`, `dia_semana` is the Monday-based day of week in `1..7`
and `es_fin_semana` holds exactly for days `6` and `7`. -/
theorem c8_dim_tiempo {m : Assoc DF} {dt : DF} (h : dimTiempoCore m = some dt) :
    (fechaDates dt).length = dt.rows.length ∧
    List.Chain' (· < ·) (fechaDates dt) ∧
    (∀ d : Date, d ∈ fechaDates dt ↔
      d ∈ (collectFechas m).map Prod.fst) ∧
    skDense dt "fecha_sk" ∧
    dt.rows.all tiempoRowOk = true := by
  refine ⟨?_, ?_, ?_, dimTiempoCore_skDense h, ?_⟩
  · rw [fechaDates_dimTiempo h, dimTiempoCore_parts h]
    exact (mkTiempoRows_length 1 _).symm
  · rw [fechaDates_dimTiempo h]
    have hs : List.Sorted (· ≤ ·) (fechasUnicas m) :=
      List.sorted_insertionSort _ _
    have hn : (fechasUnicas m).Nodup :=
      (List.perm_insertionSort _ _).nodup_iff.mpr (List.nodup_dedup _)
    exact List.chain'_iff_pairwise.mpr (hs.lt_of_le hn)
  · intro d
    rw [fechaDates_dimTiempo h]
    unfold fechasUnicas
    rw [(List.perm_insertionSort _ _).mem_iff, List.mem_dedup]
  · rw [dimTiempoCore_parts h]
    exact mkTiempoRows_all_ok 1 _ (fechasUnicas_valid m)

theorem c8_dim_tiempo_witness :
    (fechaDates dtOrphan).length = dtOrphan.rows.length ∧
    List.Chain' (· < ·) (fechaDates dtOrphan) ∧
    skDense dtOrphan "fecha_sk" ∧
    dtOrphan.rows.all tiempoRowOk = true := by
  have h := c8_dim_tiempo (show dimTiempoCore dsOrphan = some dtOrphan from rfl)
  exact ⟨h.1, h.2.1, h.2.2.2.1, h.2.2.2.2⟩

theorem dropDuplicatesSub_parts {df df' : DF} {cs : List Col}
    (h : dropDuplicatesSub df cs = some df') :
    df'.cols = df.cols ∧ df'.rows = dedupKey (normRow cs) df.rows ∧
      ∀ c ∈ cs, c ∈ df.cols := by
  unfold dropDuplicatesSub at h
  split at h
  next hc =>
    cases h
    exact ⟨rfl, rfl, hc⟩
  next => cases h

theorem mem_addSkRows {c : Col} {k : Nat} {rs : List Row} {r : Row}
    (h : r ∈ addSkRows c k rs) :
    ∃ (j : Nat) (r1 : Row), r1 ∈ rs ∧ r = (c, Val.vint (j : Int)) :: r1 := by
  induction rs generalizing k with
  | nil => cases h
  | cons r0 rs ih =>
      rcases List.mem_cons.mp h with rfl | h
      · exact ⟨k, r0, List.mem_cons_self _ _, rfl⟩
      · obtain ⟨j, r1, hm, he⟩ := ih h
        exact ⟨j, r1, List.mem_cons_of_mem _ hm, he⟩

/-- Keep-first dedup is unchanged under an injective re-encoding of the
key. -/
theorem dedupKeyAux_congr {α α' β : Type} [DecidableEq α] [DecidableEq α']
    (g : α' → α) (hg : Function.Injective g) (key : β → α')
    (l : List β) (seen : List α') :
    dedupKeyAux (fun b => g (key b)) l (seen.map g) = dedupKeyAux key l seen := by
  induction l generalizing seen with
  | nil => rfl
  | cons x xs ih =>
      simp only [dedupKeyAux]
      by_cases h : key x ∈ seen
      · rw [if_pos (List.mem_map_of_mem g h), if_pos h]
        exact ih seen
      · have hgm : g (key x) ∉ seen.map g := by
          intro hm
          obtain ⟨a, ha, he⟩ := List.mem_map.mp hm
          exact h (hg he ▸ ha)
        rw [if_neg hgm, if_neg h]
        exact congrArg (x :: ·) (ih (key x :: seen))

/-- `renName` sends each source of a duplicate-free rename mapping to its
target. -/
theorem renName_eq_of_mem {mm : List (Col × Col)} {src dst : Col}
    (hmm : (mm.map Prod.fst).Nodup) (hp : (src, dst) ∈ mm) :
    renName mm src = dst := by
  induction mm with
  | nil => cases hp
  | cons q mm ih =>
      obtain ⟨a, b⟩ := q
      rw [List.map_cons, List.nodup_cons] at hmm
      rcases List.mem_cons.mp hp with he | hp'
      · rw [Prod.ext_iff] at he
        obtain ⟨h1, h2⟩ := he
        simp only at h1 h2
        subst h1
        subst h2
        simp [renName]
      · have ha : a ≠ src := by
          intro e
          subst e
          exact hmm.1 (List.mem_map.mpr ⟨(a, dst), hp', rfl⟩)
        simp only [renName, if_neg ha]
        exact ih hmm.2 hp'

/-- Reading a renamed attribute out of a finished `dim_postulante` row
recovers the corresponding source cell. -/
theorem getCell_postRow {cs : List Col} {r0 : Row} {kv : Val} {src dst : Col}
    (hsub : List.Sublist cs colsNeededPost)
    (hp : (src, dst) ∈ postRename) (hsrc : src ∈ cs) :
    getCell ((("postulante_sk", kv) :: normRow cs r0).map
      (fun p => (renName postRename p.1, p.2))) dst = getCell r0 src := by
  apply getCell_of_mem_nodup
  · rw [List.map_cons]
    refine List.mem_cons_of_mem _ (List.mem_map.mpr ⟨(src, getCell r0 src), ?_, ?_⟩)
    · exact List.mem_map.mpr ⟨src, hsrc, rfl⟩
    · dsimp only
      rw [renName_eq_of_mem (by decide) hp]
  · have hlab : ((("postulante_sk", kv) :: normRow cs r0).map
        (fun p => (renName postRename p.1, p.2))).map Prod.fst
        = "postulante_sk" :: cs.map (fun c => renName postRename c) := by
      rw [List.map_cons, List.map_cons]
      refine congrArg₂ _ rfl ?_
      unfold normRow
      rw [List.map_map, List.map_map]
      rfl
    rw [hlab, List.nodup_cons]
    constructor
    · intro hmem
      have : "postulante_sk" ∈ colsNeededPost.map (fun c => renName postRename c) :=
        (hsub.map _).subset hmem
      exact absurd this (by decide)
    · exact (show (colsNeededPost.map (fun c => renName postRename c)).Nodup
        by decide).sublist (hsub.map _)

theorem addSkRows_map_ext {c : Col} {rs : List Row} {A : Type}
    {f : Row → A} {g : Row → A}
    (h : ∀ (j : Nat), ∀ r1 ∈ rs, f ((c, Val.vint (j : Int)) :: r1) = g r1) :
    ∀ k, (addSkRows c k rs).map f = rs.map g := by
  induction rs with
  | nil => intro k; rfl
  | cons r rs ih =>
      intro k
      simp only [addSkRows, List.map_cons]
      rw [h k r (List.mem_cons_self _ _),
        ih (fun j r1 hr1 => h j r1 (List.mem_cons_of_mem _ hr1)) (k + 1)]

/-- C9: `dim_postulante` holds exactly one row per distinct applicant
natural key, in first-appearance order; each row's attribute cells are
those of the first source row carrying its key; `postulante_sk` is the
dense 1-based row position after deduplication. -/
theorem c9_dim_postulante {m : Assoc DF} {df d : DF} {w : List String}
    (hg : aget m "postulante" = some df)
    (h : dimPostulanteCore m = some (some d, w)) :
    d.rows.length = ((df.rows.map postKey).dedup).length ∧
    colVals d "id_postulante_original" = dfirst (df.rows.map postKey) ∧
    skDense d "postulante_sk" ∧
    ∀ r ∈ d.rows, ∃ r0,
      df.rows.find? (fun q => decide (postKey q = getCell r "id_postulante_original"))
        = some r0 ∧
      ∀ p ∈ postRename, p.1 ∈ df.cols → getCell r p.2 = getCell r0 p.1 := by
  have hsk := dimPostulanteCore_skDense h
  unfold dimPostulanteCore at h
  rw [hg] at h
  dsimp only at h
  rw [Option.bind_eq_bind', Option.bind_eq_some] at h
  obtain ⟨sel, hsel, h⟩ := h
  rw [Option.bind_eq_bind', Option.bind_eq_some] at h
  obtain ⟨d1, hd1, h⟩ := h
  injection h with h
  rw [Prod.mk.injEq] at h
  obtain ⟨h, -⟩ := h
  injection h with h
  subst h
  obtain ⟨hselc, hselr, -⟩ := selectCols_parts hsel
  obtain ⟨-, hd1r, hdsub⟩ := dropDuplicatesSub_parts hd1
  have hID : "ID_POSTULANTE" ∈ colsNeededPost.filter (fun c => decide (c ∈ df.cols)) := by
    have := hdsub "ID_POSTULANTE" (by simp)
    rw [hselc] at this
    exact this
  have hsub : List.Sublist (colsNeededPost.filter (fun c => decide (c ∈ df.cols)))
      colsNeededPost := List.filter_sublist _
  have hcongr : dedupKey (normRow ["ID_POSTULANTE"]) sel.rows
      = dedupKey postKey sel.rows :=
    dedupKeyAux_congr (fun v => [(("ID_POSTULANTE" : Col), v)])
      (fun a b e => by simpa using e) postKey sel.rows []
  have hrows_d1 : d1.rows = dedupKey postKey sel.rows := hd1r.trans hcongr
  have hselkeys : sel.rows.map postKey = df.rows.map postKey := by
    rw [hselr, List.map_map]
    apply List.map_congr_left
    intro r _
    show postKey (normRow _ r) = postKey r
    unfold postKey
    exact getCell_normRow_mem _ _ hID
  have hstep : ∀ (j : Nat), ∀ r1 ∈ d1.rows,
      ((fun r => getCell r "id_postulante_original") ∘
        fun r => List.map (fun p => (renName postRename p.1, p.2)) r)
        (("postulante_sk", Val.vint (j : Int)) :: r1) = postKey r1 := by
    intro j r1 hr1
    rw [hrows_d1] at hr1
    have hr1' := mem_of_mem_dedupKeyAux hr1
    rw [hselr] at hr1'
    obtain ⟨r0, hr0, rfl⟩ := List.mem_map.mp hr1'
    show getCell ((("postulante_sk", Val.vint (j : Int)) :: normRow _ r0).map
      (fun p => (renName postRename p.1, p.2))) "id_postulante_original"
      = postKey (normRow _ r0)
    rw [getCell_postRow hsub
      (show ("ID_POSTULANTE", "id_postulante_original") ∈ postRename by decide) hID]
    unfold postKey
    exact (getCell_normRow_mem _ _ hID).symm
  have hA : colVals (renameCols (insertSk d1 "postulante_sk") postRename)
      "id_postulante_original" = dfirst (df.rows.map postKey) := by
    unfold colVals renameCols insertSk
    dsimp only
    rw [List.map_map, addSkRows_map_ext hstep 1, hrows_d1]
    calc (dedupKey postKey sel.rows).map postKey
        = dedupKeyAux id (sel.rows.map postKey) [] :=
          map_key_dedupKeyAux postKey sel.rows []
      _ = dfirst (df.rows.map postKey) := by rw [hselkeys]; rfl
  refine ⟨?_, hA, hsk, ?_⟩
  · have hlen : (renameCols (insertSk d1 "postulante_sk") postRename).rows.length
        = (colVals (renameCols (insertSk d1 "postulante_sk") postRename)
            "id_postulante_original").length := (List.length_map _ _).symm
    rw [hlen, hA, dfirst_length_eq_dedup]
  · intro r hr
    rw [show (renameCols (insertSk d1 "postulante_sk") postRename).rows
      = (addSkRows "postulante_sk" 1 d1.rows).map
          (fun r => r.map (fun p => (renName postRename p.1, p.2))) from rfl] at hr
    obtain ⟨rk, hrk, rfl⟩ := List.mem_map.mp hr
    obtain ⟨j, r1, hr1, rfl⟩ := mem_addSkRows hrk
    rw [hrows_d1] at hr1
    obtain ⟨-, l1, l2, hsplit, hne⟩ := dedupKeyAux_first hr1
    rw [hselr] at hsplit
    obtain ⟨m1, m2', hdf, hm1, hm2'⟩ := List.map_eq_append_iff.mp hsplit
    obtain ⟨r0, m2, hm2e, hr0e, -⟩ := List.map_eq_cons_iff.mp hm2'
    subst hm2e
    have hgc : getCell ((("postulante_sk", Val.vint (j : Int)) :: r1).map
        (fun p => (renName postRename p.1, p.2))) "id_postulante_original"
        = postKey r0 := by
      rw [← hr0e, getCell_postRow hsub
        (show ("ID_POSTULANTE", "id_postulante_original") ∈ postRename by decide) hID]
      rfl
    refine ⟨r0, ?_, ?_⟩
    · simp only [hgc]
      rw [hdf]
      apply find?_first_occ
      intro q hq e
      apply hne (normRow _ q) (hm1 ▸ List.mem_map.mpr ⟨q, hq, rfl⟩)
      show postKey (normRow _ q) = postKey r1
      rw [← hr0e]
      unfold postKey
      rw [getCell_normRow_mem _ _ hID, getCell_normRow_mem _ _ hID]
      exact e
    · intro p hp hpdf
      have hsrcN : p.1 ∈ colsNeededPost := by
        have h1 : p.1 ∈ postRename.map Prod.fst := List.mem_map_of_mem Prod.fst hp
        rw [show postRename.map Prod.fst = colsNeededPost from rfl] at h1
        exact h1
      have hsrc : p.1 ∈ colsNeededPost.filter (fun c => decide (c ∈ df.cols)) :=
        List.mem_filter.mpr ⟨hsrcN, decide_eq_true hpdf⟩
      rw [← hr0e]
      exact getCell_postRow hsub (show (p.1, p.2) ∈ postRename from hp) hsrc

set_option maxRecDepth 40000 in
theorem c9_dim_postulante_witness :
    dimPost100.rows.length = ((dfPost105.rows.map postKey).dedup).length ∧
    dimPost100.rows.length = 100 ∧
    colVals dimPost100 "id_postulante_original" = dfirst (dfPost105.rows.map postKey) ∧
    skDense dimPost100 "postulante_sk" := by
  have h := c9_dim_postulante
    (show aget dsPost100 "postulante" = some dfPost105 from rfl)
    (show dimPostulanteCore dsPost100 = some (some dimPost100, []) from rfl)
  exact ⟨h.1, by decide, h.2.1, h.2.2.1⟩

/-- C7 counterexample: with the applicant and job-posting datasets both
absent, the transformation does not continue to completion —
`transform_all` returns `(None, None)`.  (The abort happens in the very
first builder: no date can be collected, so `_build_dim_tiempo`'s `.dt`
accessor raises.) -/
theorem c7_counterexample :
    aget dsCompOnly "postulante" = none ∧ aget dsCompOnly "vacantes" = none ∧
      transform_all todayRun dsCompOnly = none :=
  ⟨rfl, rfl, rfl⟩

/-- C7 (amended): when a required source dataset is absent, the guarded
dimension builders (applicant, company, posting, competency, career,
institution) skip their dimension and record a warning.  The time and
location builders however are unguarded: with the job-posting and
education datasets absent no date is collected, so the time builder's
`.dt` accessor raises — and since it is the first builder called, the
whole transformation aborts there with `(None, None)`; the location
builder's `pd.concat([])` likewise raises with both of its source
datasets absent.  The pipeline thus aborts instead of continuing to
completion. -/
theorem c7_guarded_builders_skip (today : Date) (m : Assoc DF)
    (hp : aget m "postulante" = none) (hv : aget m "vacantes" = none)
    (he : aget m "educacion" = none) (hc : aget m "competencias" = none) :
    dimPostulanteCore m = some (none, ["Dataset postulante no disponible"]) ∧
    dimEmpresaCore m = some (none, ["Dataset vacantes no disponible"]) ∧
    dimVacanteCore m = some (none, ["Dataset vacantes no disponible"]) ∧
    dimCompetenciaCore m = some (none, ["Dataset competencias no disponible"]) ∧
    dimCarreraCore m = some (none, ["Dataset educacion no disponible"]) ∧
    dimInstitucionCore m = some (none, ["Dataset educacion no disponible"]) ∧
    dimTiempoCore m = none ∧
    dimUbicacionCore m = none ∧
    transform_all today m = none := by
  have ht : dimTiempoCore m = none := by
    unfold dimTiempoCore fechasUnicas collectFechas dateColsOf
    rw [hv, he]
    rfl
  refine ⟨?_, ?_, ?_, ?_, ?_, ?_, ht, ?_, ?_⟩
  · unfold dimPostulanteCore
    rw [hp]
  · unfold dimEmpresaCore
    rw [hv]
  · unfold dimVacanteCore
    rw [hv]
  · unfold dimCompetenciaCore
    rw [hc]
  · unfold dimCarreraCore
    rw [he]
  · unfold dimInstitucionCore
    rw [he]
  · unfold dimUbicacionCore ubSource
    rw [hp, hv]
    rfl
  · unfold transform_all transformState
    rw [ht]
    rfl

theorem c7_guarded_builders_skip_witness :
    dimPostulanteCore [] = some (none, ["Dataset postulante no disponible"]) ∧
    dimEmpresaCore [] = some (none, ["Dataset vacantes no disponible"]) ∧
    dimVacanteCore [] = some (none, ["Dataset vacantes no disponible"]) ∧
    dimCompetenciaCore [] = some (none, ["Dataset competencias no disponible"]) ∧
    dimCarreraCore [] = some (none, ["Dataset educacion no disponible"]) ∧
    dimInstitucionCore [] = some (none, ["Dataset educacion no disponible"]) ∧
    dimTiempoCore [] = none ∧
    dimUbicacionCore [] = none ∧
    transform_all todayRun [] = none :=
  c7_guarded_builders_skip todayRun [] rfl rfl rfl rfl

/-- C1: evaluating the pipeline on a dataset mapping whose competency
dataset references the orphan posting ID 3 (absent from the job-posting
dataset): all three competency rows carry a non-null posting ID and a
non-null competency name, yet `hechos_competencia_requerida` keeps only
the two rows for postings 1 and 2 — the orphan competency row is
silently dropped by the inner join, because `transform_all` builds
`dim_vacante` (phase 1) before `_reconcile_orphans` appends the
placeholder posting (phase 2). -/
theorem c1_orphan_competency_dropped :
    (dfCompO.rows.filter (fun r => decide (getCell r "AVISOID" ≠ Val.vnull ∧
        getCell r "NOMBRECOMPETENCIA" ≠ Val.vnull))).length = 3 ∧
    (transformState todayRun dsOrphan).map (fun st =>
        (aget st.facts "hechos_competencia_requerida").map (fun f => colVals f "vacante_sk"))
      = some (some [Val.vint 1, Val.vint 2]) :=
  ⟨rfl, rfl⟩

/-- C2: with posting IDs 1, 2 and competency references 1, 2, 3, the
reconciler does append the placeholder posting for ID 3 (marker name,
zero vacancies) to the dataset map, but the resulting `dim_vacante` has
2 rows, not the claimed 3: placeholders are created after dimension
construction, not before. -/
theorem c2_placeholder_after_dims :
    (transformState todayRun dsOrphan).map (fun st =>
        (aget st.datasets "vacantes").map (fun dfv =>
          dfv.rows.map (fun r =>
            (getCell r "AVISOID", getCell r "NOMBREAVISO", getCell r "VACANTES"))))
      = some (some [(Val.vint 1, Val.vnull, Val.vnull),
          (Val.vint 2, Val.vnull, Val.vnull),
          (Val.vint 3, Val.vstr "REGISTRO_HUERFANO_PRESERVADO", Val.vint 0)]) ∧
    (transformState todayRun dsOrphan).map (fun st =>
        (aget st.dims "dim_vacante").map (fun df => df.rows.length)) = some (some 2) :=
  ⟨rfl, rfl⟩

/-- C3 (amended): in every successful transformation whose job-posting
dataset carries pairwise-distinct AVISOID values (as the upstream
cleaning stage's primary-key validation guarantees), the surrogate-key
column of every dimension table has no nulls and no duplicates and every
key is a positive integer at most the row count — indeed exactly the
dense 1-based contiguous assignment `1..n`. -/
theorem c3_surrogate_keys_sound (today : Date) (ds0 : Assoc DF) (st : TState)
    (h : transformState today ds0 = some st)
    (hnd : ∀ dfv, aget ds0 "vacantes" = some dfv →
      (dfv.rows.map (fun r => getCell r "AVISOID")).Nodup) :
    allDimsSkSound st.dims = true ∧ allDimsSkDense st.dims = true := by
  obtain ⟨t, du, dp, w3, de, w4, dv, w5, dc, w6, dca, w7, di, w8, ds1, stats, wR,
    f1, wf1, f2, wf2, f3, wf3, f4, wf4, f5, wf5,
    h0, h1, h2, h3, h4, h5, h6, h7, h8, h9, h10, h11, h12, h13, hds, hdims, hfacts, hstats⟩ :=
      transformState_inv h
  have hdense : ∀ p ∈ st.dims, skDense p.2 (skNameOf p.1) := by
    intro p hp
    rw [hdims] at hp
    rcases mem_buildDims hp with hc | hc | ⟨d0, he, hc⟩ | ⟨d0, he, hc⟩ | ⟨d0, he, hc⟩ |
      ⟨d0, he, hc⟩ | ⟨d0, he, hc⟩ | ⟨d0, he, hc⟩
    · subst hc
      exact dimTiempoCore_skDense h0
    · subst hc
      exact dimUbicacionCore_skDense h1
    · subst hc
      exact dimPostulanteCore_skDense (he ▸ h2)
    · subst hc
      exact dimEmpresaCore_skDense (he ▸ h3)
    · subst hc
      exact dimVacanteCore_skDense (he ▸ h4) hnd
    · subst hc
      exact dimCompetenciaCore_skDense (he ▸ h5)
    · subst hc
      exact dimCarreraCore_skDense (he ▸ h6)
    · subst hc
      exact dimInstitucionCore_skDense (he ▸ h7)
  constructor
  · rw [allDimsSkSound, List.all_eq_true]
    intro p hp
    rw [decide_eq_true_eq]
    exact skSound_of_skDense (hdense p hp)
  · rw [allDimsSkDense, List.all_eq_true]
    intro p hp
    rw [decide_eq_true_eq]
    exact hdense p hp

/-- C3 counterexample: with a duplicated posting ID in the job-posting
dataset, the back-merge of `_build_dim_vacante` duplicates surrogate key
1, so the claimed unconditional no-duplicates invariant is false. -/
theorem c3_counterexample :
    (transformState todayRun dsDup).map (fun st => allDimsSkSound st.dims) = some false ∧
    (transformState todayRun dsDup).map (fun st =>
        (aget st.dims "dim_vacante").map (fun df => colVals df "vacante_sk"))
      = some (some [Val.vint 1, Val.vint 1]) :=
  ⟨rfl, rfl⟩

theorem c3_surrogate_keys_sound_witness :
    allDimsSkSound stOrphan.dims = true ∧ allDimsSkDense stOrphan.dims = true :=
  c3_surrogate_keys_sound todayRun dsOrphan stOrphan (by rfl)
    (by
      intro dfv hg
      obtain rfl : dfVacO = dfv := Option.some.inj hg
      decide)

end MTPE
